import Mathlib

/-!
# Verification of the ModuleNet program-to-module execution engine

Shallow embedding of `vr/models/module_net.py` (class `ModuleNet`) from the
systematic-generalization-sqoop repository, together with the vocabulary
conventions produced by `scripts/generate_flatqa.py`.

Modelling conventions:
* tensors holding one feature map per example are `List α` (one abstract value
  per example); `torch.cat` over the batch dimension is list concatenation;
* module instances are identified by a numeric id (allocation order), and the
  behaviour of instance `m` on its gathered inputs is an ambient function
  `moduleFn : Nat → List α → α`;
* Python dictionaries are association lists with overwriting insertion
  (`dinsert`) and first-match lookup (`alookup`);
* a raised Python exception (KeyError, IndexError, NameError, AttributeError,
  AssertionError) is `none` / an `Except.error`;
* the bounded recursion of `_forward_modules_ints_helper` is given a fuel
  parameter; `intsHelper_spec` shows that the fuel supplied by the wrapper
  always suffices, so the fuel is an artifact of the embedding, not of the
  code.
-/

namespace ModuleNet

/-- Association-list lookup, first match wins (Python dict read `d[k]`,
    the `none` case being a `KeyError`). -/
def alookup (m : List (String × β)) (k : String) : Option β :=
  (m.find? (fun p => p.1 == k)).map (·.2)

/-- Python dict assignment `d[k] = v`: overwrite the binding if the key is
    present, otherwise append it (insertion order is preserved). -/
def dinsert (m : List (String × β)) (k : String) (v : β) : List (String × β) :=
  if (m.find? (fun p => p.1 == k)).isSome then
    m.map (fun p => if p.1 == k then (k, v) else p)
  else m ++ [(k, v)]

/-- One node of an explicit-form ("JSON") program: an operator name and the
    indices of earlier nodes whose outputs it consumes.

    Modelled from the spec: `vr.programs.function_to_str` is not under `src/`;
    per the spec (§3, explicit form) each node carries an operator name and
    explicit input indices referencing earlier nodes, so a node is embedded as
    that pair and `function_to_str` as the projection onto the name. -/
structure ProgNode where
  function : String
  inputs : List Nat
deriving Repr, DecidableEq, Inhabited

/-- The mutable state of a `ModuleNet` object that the interpreter touches:
    the module registry (`self.function_modules`, name or arity-class key to
    module-instance id), the arity table (`self.function_modules_num_inputs`),
    the FiLM conditioning-id table (`self.fn_str_2_filmId`), the vocabulary's
    id-to-token map, the conditioning parameter banks (`self.gammas`,
    `self.betas`, of abstract type `γ`), the configuration flags, and the
    per-evaluation capture buffers (`self.used_fns`, `self.all_module_outputs`,
    `self.all_module_grad_outputs`). -/
structure NetState (α γ : Type) where
  useFilm : Bool
  sharingPatterns : Nat × Nat
  functionModules : List (String × Nat)
  functionModulesNumInputs : List (String × Nat)
  fnStr2FilmId : List (String × Int)
  programIdxToToken : Nat → String
  gammas : Option γ
  betas : Option γ
  saveModuleOutputs : Bool
  usedFns : List (List Bool)
  allModuleOutputs : List (List α)
  allModuleGradOutputs : List (List (Option α))

/-! ## Explicit-form ("JSON") evaluation: `ModuleNet._forward_modules_json` -/

variable {α γ : Type}

/-- Inner loop of `_forward_modules_json` for one example: iterate the node
    list in order; for each node look its operator up in the registry
    (`KeyError` is `none`), bind `[feats[i:i+1]]` for `'scene'` and otherwise
    gather the outputs of the nodes at the listed indices (an out-of-range
    index is an `IndexError`, i.e. `none`), apply the module and append the
    result to the accumulated output list. -/
def runNodes [Inhabited α] (moduleFn : Nat → List α → α) (fm : List (String × Nat))
    (feat : α) : List ProgNode → List α → Option (List α)
  | [], outs => some outs
  | f :: rest, outs =>
    match alookup fm f.function with
    | none => none
    | some m =>
      if f.function = "scene" then
        runNodes moduleFn fm feat rest (outs ++ [moduleFn m [feat]])
      else if f.inputs.all (fun k => k < outs.length) then
        runNodes moduleFn fm feat rest
          (outs ++ [moduleFn m (f.inputs.map (fun k => outs.getD k default))])
      else none

/-- Per-example loop of `_forward_modules_json` over the listed example
    indices: run the node list of each example, take the last node's output as
    the example's result (`module_outputs[-1]`; `none` on an empty program),
    and return both the full per-node output lists (for the capture buffers)
    and the final per-example outputs in input order. -/
def jsonLoop [Inhabited α] (moduleFn : Nat → List α → α) (fm : List (String × Nat))
    (feats : List α) (program : List (List ProgNode)) :
    List Nat → Option (List (List α) × List α)
  | [] => some ([], [])
  | i :: is => do
    let outs ← runNodes moduleFn fm (feats.getD i default) (program.getD i []) []
    let last ← outs.getLast?
    let (allOuts, finals) ← jsonLoop moduleFn fm feats program is
    pure (outs :: allOuts, last :: finals)

/-- `ModuleNet._forward_modules_json`: evaluate every example's node list and
    concatenate the final outputs in input order; the capture buffers
    `all_module_outputs` / `all_module_grad_outputs` are reset and, when
    `save_module_outputs` is set, filled with the per-node outputs (clones)
    and one gradient placeholder per node. -/
def forwardModulesJson [Inhabited α] (moduleFn : Nat → List α → α) (st : NetState α γ)
    (feats : List α) (program : List (List ProgNode)) :
    Option (List α × NetState α γ) :=
  (jsonLoop moduleFn st.functionModules feats program (List.range feats.length)).map
    (fun r =>
      (r.2,
       { st with
         allModuleOutputs := if st.saveModuleOutputs then r.1 else []
         allModuleGradOutputs :=
           if st.saveModuleOutputs then
             (List.range feats.length).map
               (fun i => (program.getD i []).map (fun _ => (none : Option α)))
           else [] }))

/-- `module = self.function_modules[f_str]; module(*inputs)` as one step: apply
    the module instance registered under `s` (hypotheses elsewhere guarantee
    the key is present, so the `getD 0` default is never reached). -/
def modOf (moduleFn : Nat → List α → α) (fm : List (String × Nat)) (s : String)
    (args : List α) : α :=
  moduleFn ((alookup fm s).getD 0) args

/-- A concrete `NetState` over `Nat` values used by witnesses: the registry and
    arity table of the spec's example vocabulary {scene:0, And:2, red:1,
    square:1}, modules registered in vocabulary order, FiLM disabled. -/
def demoState : NetState Nat Unit :=
  { useFilm := false, sharingPatterns := (0, 0),
    functionModules := [("scene", 0), ("And", 1), ("red", 2), ("square", 3)],
    functionModulesNumInputs := [("scene", 0), ("And", 2), ("red", 1), ("square", 1)],
    fnStr2FilmId := [], programIdxToToken := fun _ => "<NULL>",
    gammas := none, betas := none, saveModuleOutputs := false,
    usedFns := [], allModuleOutputs := [], allModuleGradOutputs := [] }

/-! ## Token-sequence evaluation: `ModuleNet._forward_modules_ints` -/

/-- The abstract expression tree recovered from a token sequence: `feat` is an
    example's feature map, `node s ts` is operator `s` applied to sub-trees. -/
inductive PTree where
  | feat : PTree
  | node : String → List PTree → PTree

mutual
/-- Evaluate a `PTree` with `modApp` as module application and `ft` as the
    example's feature map. -/
def evalT (modApp : String → List α → α) (ft : α) : PTree → α
  | .feat => ft
  | .node s ts => modApp s (evalTs modApp ft ts)

def evalTs (modApp : String → List α → α) (ft : α) : List PTree → List α
  | [] => []
  | t :: ts => evalT modApp ft t :: evalTs modApp ft ts
end

mutual
/-- Number of operator nodes of a tree (the node count of the equivalent
    explicit-form program; the feature-map leaf is not a node). -/
def treeSize : PTree → Nat
  | .feat => 0
  | .node _ ts => 1 + treeSizeList ts

def treeSizeList : List PTree → Nat
  | [] => 0
  | t :: ts => treeSize t + treeSizeList ts
end

/-- `self.used_fns[i, j] = 1` on a boolean mask. -/
def markUsedMask (m : List (List Bool)) (i j : Nat) : List (List Bool) :=
  m.set i ((m.getD i []).set j true)

/-- Apply `markUsedMask` at row `i` for every position in `ps`, in order. -/
def markFold (m : List (List Bool)) (i : Nat) (ps : List Nat) : List (List Bool) :=
  ps.foldl (fun acc p => markUsedMask acc i p) m

/-- `self.used_fns[i, j] = 1` on the evaluation state. -/
def markUsedSt (st : NetState α γ) (i j : Nat) : NetState α γ :=
  { st with usedFns := markUsedMask st.usedFns i j }

/-- Mark every position of `ps` in row `i` of the used-token mask. -/
def markFoldSt (st : NetState α γ) (i : Nat) (ps : List Nat) : NetState α γ :=
  { st with usedFns := markFold st.usedFns i ps }

/-- A position the recursive consumption marks as used: in range and holding
    neither the padding token `<NULL>` nor the start token `<START>`. -/
def isUsedPos (tok : Nat → String) (row : List Nat) (p : Nat) : Bool :=
  decide (p < row.length) && !(tok (row.getD p 0) == "<NULL>")
    && !(tok (row.getD p 0) == "<START>")

/-- A position holding the start-of-sequence token. -/
def isStartPos (tok : Nat → String) (row : List Nat) (p : Nat) : Bool :=
  decide (p < row.length) && (tok (row.getD p 0) == "<START>")

/-- A position whose consumption falls back to the 0-arity root `'scene'`:
    out of range or holding the padding token `<NULL>`. -/
def isFallbackPos (tok : Nat → String) (row : List Nat) (p : Nat) : Bool :=
  !(decide (p < row.length)) || (tok (row.getD p 0) == "<NULL>")

/-- The half-open position interval `[j, j')`. -/
def posRange (j j' : Nat) : List Nat := List.range' j (j' - j)

/-- The positions of `[j, j')` that the consumption marks as used. -/
def usedMarks (tok : Nat → String) (row : List Nat) (j j' : Nat) : List Nat :=
  (posRange j j').filter (isUsedPos tok row)

/-- Number of `<START>` positions in `[j, j')`. -/
def countStarts (tok : Nat → String) (row : List Nat) (j j' : Nat) : Nat :=
  ((posRange j j').filter (isStartPos tok row)).length

/-- Number of fallback (padding / out-of-range) positions in `[j, j')`. -/
def countFallback (tok : Nat → String) (row : List Nat) (j j' : Nat) : Nat :=
  ((posRange j j').filter (isFallbackPos tok row)).length

/-- The `while len(module_inputs) < num_inputs` loop of
    `_forward_modules_ints_helper`: consume `n` sub-expressions with the
    evaluator `ev`, threading the position counter and the state. -/
def gatherN (ev : Nat → NetState α γ → Option (α × Nat × NetState α γ)) :
    Nat → Nat → NetState α γ → Option (List α × Nat × NetState α γ)
  | 0, j, st => some ([], j, st)
  | n + 1, j, st => do
    let (v, j1, st1) ← ev j st
    let (vs, j2, st2) ← gatherN ev n j1 st1
    pure (v :: vs, j2, st2)

/-- Body of `_forward_modules_ints_helper` after the sentinel handling, for a
    resolved operator name `fnStr` and used-flag `used`: mark position `j` when
    used, advance the position, look the arity and the module up (a missing key
    is a `KeyError`, i.e. `none`), bind the feature map for `'scene'` and
    otherwise gather `num_inputs` sub-expressions with `rec`, then apply the
    module.  The FiLM branch performs its table lookups and then reads the
    unbound global names `gammas` and `betas` (`module_net.py:274-275`), so it
    always raises; it is embedded as `none`. -/
def intsApply [Inhabited α] (moduleFn : Nat → List α → α) (feats : List α)
    (i : Nat) (rec : Nat → NetState α γ → Option (α × Nat × NetState α γ))
    (fnStr : String) (used : Bool) (j : Nat) (st : NetState α γ) :
    Option (α × Nat × NetState α γ) :=
  let st1 := if used then markUsedSt st i j else st
  match alookup st1.functionModulesNumInputs fnStr with
  | none => none
  | some ni =>
    let numInputs := if fnStr = "scene" then 1 else ni
    if st1.useFilm then none
    else
      match alookup st1.functionModules fnStr with
      | none => none
      | some m =>
        if fnStr = "scene" then some (moduleFn m [feats.getD i default], j + 1, st1)
        else
          match gatherN rec numInputs (j + 1) st1 with
          | none => none
          | some (ins, j2, st2) => some (moduleFn m ins, j2, st2)

/-- One step of `_forward_modules_ints_helper`: read the token at position `j`
    of example `i`'s row (falling back to `'scene'` past the end of the row),
    treat `<NULL>` as an unused `'scene'`, skip `<START>` by recursing at
    `j + 1`, and otherwise consume the token as a used operator. -/
def intsStep [Inhabited α] (moduleFn : Nat → List α → α) (feats : List α)
    (program : List (List Nat)) (i : Nat)
    (rec : Nat → NetState α γ → Option (α × Nat × NetState α γ))
    (j : Nat) (st : NetState α γ) : Option (α × Nat × NetState α γ) :=
  let row := program.getD i []
  let fnStr0 := if j < row.length then st.programIdxToToken (row.getD j 0) else "scene"
  if fnStr0 = "<NULL>" then intsApply moduleFn feats i rec "scene" false j st
  else if fnStr0 = "<START>" then rec (j + 1) st
  else intsApply moduleFn feats i rec fnStr0 (decide (j < row.length)) j st

/-- `ModuleNet._forward_modules_ints_helper`, with a fuel parameter bounding
    the recursion depth (`intsHelper_spec` shows the wrapper's fuel choice is
    always sufficient, so exhaustion never occurs on the executed paths). -/
def intsHelper [Inhabited α] (moduleFn : Nat → List α → α) (feats : List α)
    (program : List (List Nat)) (i : Nat) :
    Nat → Nat → NetState α γ → Option (α × Nat × NetState α γ)
  | 0 => fun _ _ => none
  | fuel + 1 => intsStep moduleFn feats program i (intsHelper moduleFn feats program i fuel)

/-- `torch.Tensor(program.size()).fill_(0)`: the all-false used-token mask. -/
def zeroMask (program : List (List Nat)) : List (List Bool) :=
  program.map (fun row => row.map (fun _ => false))

/-- The `for i in range(N)` loop of `_forward_modules_ints`: evaluate each
    listed example from position 0, collecting the per-example outputs. -/
def intsLoop [Inhabited α] (moduleFn : Nat → List α → α) (feats : List α)
    (program : List (List Nat)) :
    List Nat → NetState α γ → Option (List α × NetState α γ)
  | [], st => some ([], st)
  | i :: is, st => do
    let (v, _, st1) ←
      intsHelper moduleFn feats program i ((program.getD i []).length + 2) 0 st
    let (vs, st2) ← intsLoop moduleFn feats program is st1
    pure (v :: vs, st2)

/-- `ModuleNet._forward_modules_ints`: reset the used-token mask to zeros,
    evaluate every example's token row from position 0 and concatenate the
    outputs in input order. -/
def forwardModulesInts [Inhabited α] (moduleFn : Nat → List α → α)
    (st : NetState α γ) (feats : List α) (program : List (List Nat)) :
    Option (List α × NetState α γ) :=
  intsLoop moduleFn feats program (List.range feats.length)
    { st with usedFns := zeroMask program }

instance : Inhabited PTree := ⟨PTree.feat⟩

/-- Row-level form of the mask updates: set the listed positions of one
    mask row to `true`, in order. -/
def rowMark (r : List Bool) (ps : List Nat) : List Bool :=
  ps.foldl (fun acc p => acc.set p true) r

/-- A concrete `NetState` over `Nat` values mirroring the vocabulary that
    `scripts/generate_flatqa.py` saves: program tokens
    `<NULL>, <START>, <END>, scene, And, red, square` with ids 0..6, arity 2
    for `And`, 0 for `scene` and 1 for everything else, and (FiLM disabled)
    one module instance per token, registered in vocabulary order. -/
def flatqaState : NetState Nat Unit :=
  { useFilm := false, sharingPatterns := (0, 0),
    functionModules := [("<NULL>", 0), ("<START>", 1), ("<END>", 2), ("scene", 3),
      ("And", 4), ("red", 5), ("square", 6)],
    functionModulesNumInputs := [("<NULL>", 1), ("<START>", 1), ("<END>", 1),
      ("scene", 0), ("And", 2), ("red", 1), ("square", 1)],
    fnStr2FilmId := [],
    programIdxToToken := fun n =>
      match n with
      | 0 => "<NULL>" | 1 => "<START>" | 2 => "<END>" | 3 => "scene"
      | 4 => "And" | 5 => "red" | 6 => "square" | _ => "<NULL>",
    gammas := none, betas := none, saveModuleOutputs := false,
    usedFns := [], allModuleOutputs := [], allModuleGradOutputs := [] }

/-- All components of the evaluation state except the used-token mask and the
    capture buffers: the module registry, the arity table, the conditioning-id
    table, the conditioning parameter banks, the vocabulary and the flags. -/
def FramePreserved (st st' : NetState α γ) : Prop :=
  st'.useFilm = st.useFilm ∧ st'.sharingPatterns = st.sharingPatterns ∧
  st'.functionModules = st.functionModules ∧
  st'.functionModulesNumInputs = st.functionModulesNumInputs ∧
  st'.fnStr2FilmId = st.fnStr2FilmId ∧
  st'.programIdxToToken = st.programIdxToToken ∧
  st'.gammas = st.gammas ∧ st'.betas = st.betas ∧
  st'.saveModuleOutputs = st.saveModuleOutputs

/-! ## Registry construction: the vocabulary loop of `ModuleNet.__init__`
    (`module_net.py:84-162`) -/

/-- A Python `NameError`: a local variable (`mod` / `newModule`) read before
    any assignment, which happens when the first vocabulary entry falls
    through both module branches. -/
inductive BuildError where
  | nameError
deriving Repr, DecidableEq

/-- The loop state of `ModuleNet.__init__`'s vocabulary loop: the three
    dictionaries being built, a fresh-instance counter standing for module
    allocation (each `ResidualBlock` / `ConcatBlock` / `FiLMedResBlock` /
    `ConcatFiLMedResBlock` construction yields a new id), and the Python
    locals `mod`, `stored_name`, `newModule`, which persist across loop
    iterations (`none` = never assigned). -/
structure BuildState where
  functionModules : List (String × Nat)
  functionModulesNumInputs : List (String × Nat)
  fnStr2FilmId : List (String × Int)
  nextId : Nat
  lastMod : Option Nat
  lastStored : Option String
  lastNew : Option Bool
deriving Repr, DecidableEq

def initialBuildState : BuildState :=
  { functionModules := [], functionModulesNumInputs := [], fnStr2FilmId := [],
    nextId := 0, lastMod := none, lastStored := none, lastNew := none }

/-- `self.function_modules_num_inputs[fn_str] = num_inputs`
    (`module_net.py:89-90`). -/
def buildArity (st : BuildState) (fnStr : String) (numInputs : Nat) : BuildState :=
  { st with functionModulesNumInputs := dinsert st.functionModulesNumInputs fnStr numInputs }

/-- The FiLM conditioning-id assignment (`module_net.py:92-97`).  Note the
    source compares `fn_str` against the misspelled literal `'scence'` at
    line 94, so an actual `'scene'` entry of declared arity 0 assigns key
    `"0"` with id `-1` instead of joining the unary class. -/
def buildFilmId (useFilm : Bool) (sp : Nat × Nat) (st : BuildState)
    (fnStr : String) (numInputs : Nat) : BuildState :=
  if useFilm then
    if sp.2 = 1 then
      let numId : Int := if fnStr = "scence" then 1 else (numInputs : Int)
      { st with fnStr2FilmId := dinsert st.fnStr2FilmId (toString numId) (numId - 1) }
    else
      { st with fnStr2FilmId :=
          dinsert st.fnStr2FilmId fnStr (st.fnStr2FilmId.length : Int) }
  else st

/-- The module branch (`module_net.py:99-155`): allocate or reuse a module
    instance for `fn_str == 'scene' or num_inputs == 1` / `num_inputs == 2`;
    any other entry falls through, keeping the previous iteration's Python
    locals `mod`, `stored_name`, `newModule` untouched. -/
def buildModule (useFilm : Bool) (sp : Nat × Nat) (st : BuildState)
    (fnStr : String) (numInputs : Nat) : BuildState :=
  if fnStr = "scene" ∨ numInputs = 1 then
    if useFilm then
      if sp.1 = 1 then
        match alookup st.functionModules "1" with
        | some m =>
          { st with lastMod := some m, lastStored := some "1", lastNew := some false }
        | none =>
          { st with lastMod := some st.nextId, nextId := st.nextId + 1, lastStored := some "1", lastNew := some true }
      else
        { st with lastMod := some st.nextId, nextId := st.nextId + 1, lastStored := some fnStr, lastNew := some true }
    else
      { st with lastMod := some st.nextId, nextId := st.nextId + 1 }
  else if numInputs = 2 then
    if useFilm then
      if sp.1 = 1 then
        match alookup st.functionModules "2" with
        | some m =>
          { st with lastMod := some m, lastStored := some "2", lastNew := some false }
        | none =>
          { st with lastMod := some st.nextId, nextId := st.nextId + 1, lastStored := some "2", lastNew := some true }
      else
        { st with lastMod := some st.nextId, nextId := st.nextId + 1, lastStored := some fnStr, lastNew := some true }
    else
      { st with lastMod := some st.nextId, nextId := st.nextId + 1 }
  else st

/-- The registration (`module_net.py:156-162`): under FiLM, register
    `(stored_name, mod)` when `newModule` holds; otherwise register
    `(fn_str, mod)`.  Reading a local that was never assigned (first entry
    fell through both module branches) is a `NameError`. -/
def buildRegister (useFilm : Bool) (st : BuildState) (fnStr : String) :
    Except BuildError BuildState :=
  if useFilm then
    match st.lastNew with
    | none => .error .nameError
    | some false => .ok st
    | some true =>
      match st.lastStored, st.lastMod with
      | some s, some m =>
        .ok { st with functionModules := dinsert st.functionModules s m }
      | _, _ => .error .nameError
  else
    match st.lastMod with
    | none => .error .nameError
    | some m => .ok { st with functionModules := dinsert st.functionModules fnStr m }

/-- One iteration of the vocabulary loop for the entry `(fnStr, numInputs)`:
    arity record, FiLM id assignment, module branch, registration — in
    source order. -/
def buildStep (useFilm : Bool) (sp : Nat × Nat) (st0 : BuildState)
    (fnStr : String) (numInputs : Nat) : Except BuildError BuildState :=
  buildRegister useFilm
    (buildModule useFilm sp
      (buildFilmId useFilm sp (buildArity st0 fnStr numInputs) fnStr numInputs)
      fnStr numInputs)
    fnStr

/-- The full vocabulary loop (`for fn_str in vocab['program_token_to_idx']`),
    iterating the vocabulary in its (insertion-order) iteration order. -/
def buildFunctionModules (useFilm : Bool) (sp : Nat × Nat) :
    List (String × Nat) → BuildState → Except BuildError BuildState
  | [], st => .ok st
  | (f, n) :: rest, st =>
    match buildStep useFilm sp st f n with
    | .error e => .error e
    | .ok st' => buildFunctionModules useFilm sp rest st'

/-- The program-token vocabulary saved by `scripts/generate_flatqa.py`
    (restricted to one color and one shape): tokens in insertion order with
    `program_token_arity` = 2 for `And`, 0 for `scene`, 1 for everything
    else (sentinels included). -/
def flatqaVocab : List (String × Nat) :=
  [("<NULL>", 1), ("<START>", 1), ("<END>", 1), ("scene", 0), ("And", 2),
   ("red", 1), ("square", 1)]

/-- The arity class a vocabulary entry is routed to by the loop:
    `some 1` for `'scene'` or declared arity 1, `some 2` for declared arity 2,
    `none` for any entry falling through both branches. -/
def arityClass (fnStr : String) (numInputs : Nat) : Option Nat :=
  if fnStr = "scene" ∨ numInputs = 1 then some 1
  else if numInputs = 2 then some 2
  else none

/-- Module resolution during token-sequence evaluation
    (`module_net.py:243-262`): the declared arity with the `'scene'` override
    to 1, then under FiLM the arity-class key when module sharing is on and
    the operator name otherwise; without FiLM always the operator name. -/
def resolveModule (useFilm : Bool) (sp0 : Nat) (fm : List (String × Nat))
    (fnStr : String) (declaredNumInputs : Nat) : Option Nat :=
  let numInputs := if fnStr = "scene" then 1 else declaredNumInputs
  if useFilm then
    if sp0 = 1 then alookup fm (toString numInputs) else alookup fm fnStr
  else alookup fm fnStr

/-- Conditioning-id resolution during token-sequence evaluation
    (`module_net.py:246-252`): by arity-class key when conditioning sharing is
    on, by operator name otherwise. -/
def lookupFilmId (sp1 : Nat) (tbl : List (String × Int)) (fnStr : String)
    (declaredNumInputs : Nat) : Option Int :=
  let numInputs := if fnStr = "scene" then 1 else declaredNumInputs
  if sp1 = 1 then alookup tbl (toString numInputs) else alookup tbl fnStr

/-! ## `ModuleNet.__init__` top level and `declare_film_coefficients` -/

inductive InitError where
  | attributeError
  | buildError (e : BuildError)
deriving Repr, DecidableEq

/-- `ModuleNet.declare_film_coefficients` (`module_net.py:166-175`), as called
    from `__init__` at line 63: with `use_film` the body reads
    `self.fn_str_2_filmId` — assigned only later, at line 86 — as well as
    `self.module_dim` (never assigned anywhere in the class) and the
    unimported name `xavier_uniform`, so it always raises; without `use_film`
    it sets `gammas = betas = None`. -/
def declareFilmCoefficients (useFilm : Bool) : Except InitError (Option γ × Option γ) :=
  if useFilm then .error .attributeError else .ok (none, none)

/-- `ModuleNet.__init__`: after the stem and classifier (external
    collaborators, not modelled), call `declare_film_coefficients` (line 63,
    before `self.fn_str_2_filmId` exists), then run the vocabulary loop and
    assemble the evaluation state.  `idxToToken` is the vocabulary's
    id-to-token map (`vocab['program_idx_to_token']`). -/
def initModuleNet (α γ : Type) (useFilm : Bool) (sp : Nat × Nat)
    (vocab : List (String × Nat)) (idxToToken : Nat → String) :
    Except InitError (NetState α γ) :=
  match declareFilmCoefficients (γ := γ) useFilm with
  | .error e => .error e
  | .ok (gs, bs) =>
    match buildFunctionModules useFilm sp vocab initialBuildState with
    | .error e => .error (.buildError e)
    | .ok bst =>
      .ok { useFilm := useFilm, sharingPatterns := sp,
            functionModules := bst.functionModules,
            functionModulesNumInputs := bst.functionModulesNumInputs,
            fnStr2FilmId := bst.fnStr2FilmId,
            programIdxToToken := idxToToken,
            gammas := gs, betas := bs,
            saveModuleOutputs := false,
            usedFns := [], allModuleOutputs := [], allModuleGradOutputs := [] }

/-! ## Top-level dispatch: `ModuleNet.forward` (`module_net.py:297-315`) -/

/-- The runtime value passed as `program` to `forward`.  A `tensor` covers
    both `torch.autograd.Variable` and `torch.Tensor`: they are the same
    class from torch 0.4 on, so `type(program) is Variable` and
    `torch.is_tensor(program)` both hold for it; `dim` is `program.dim()` and
    `rows` its integer entries (consumed when `dim = 2`; for other ranks only
    `len(program) = rows.length`, i.e. `size(0)`, is read).  `other` is any
    further Python value, carrying `len(program)` when defined. -/
inductive ProgramRep (α : Type) where
  | pylist (p : List (List ProgNode))
  | pytuple (p : List (List ProgNode))
  | tensor (dim : Nat) (rows : List (List Nat))
  | other (len : Option Nat)

/-- `len(program)` (`none` = `TypeError`). -/
def programLen : ProgramRep α → Option Nat
  | .pylist p => some p.length
  | .pytuple p => some p.length
  | .tensor _ rows => some rows.length
  | .other l => l

inductive ForwardError where
  | typeError
  | assertionError
  | evalError
  | unsupportedFormat
deriving Repr, DecidableEq

/-- Outcome of `forward` up to the classifier (an external collaborator):
    either the concatenated module outputs with the updated state, or the
    marker that the rank-3 branch was selected.

    Modelled from the spec: the rank-3 branch calls
    `self._forward_modules_probs`, which is defined nowhere under `src/`; the
    spec (§4.3) makes the probabilistic path a dispatch-only requirement with
    its algorithm out of scope, so the routing is recorded as an opaque
    marker. -/
inductive ForwardResult (α γ : Type) where
  | done (out : List α) (st : NetState α γ)
  | probsRouted

/-- `ModuleNet.forward`: `assert N == len(program)`, then dispatch on the
    program representation — list/tuple ⇒ explicit form, a (Variable/Tensor)
    of rank 2 ⇒ token sequence, a tensor of rank 3 ⇒ the probabilistic path,
    anything else ⇒ `ValueError('Unrecognized program format')`. -/
def forward [Inhabited α] (moduleFn : Nat → List α → α) (st : NetState α γ)
    (feats : List α) (program : ProgramRep α) :
    Except ForwardError (ForwardResult α γ) :=
  match programLen program with
  | none => .error .typeError
  | some L =>
    if L = feats.length then
      match program with
      | .pylist p =>
        match forwardModulesJson moduleFn st feats p with
        | none => .error .evalError
        | some (out, st') => .ok (.done out st')
      | .pytuple p =>
        match forwardModulesJson moduleFn st feats p with
        | none => .error .evalError
        | some (out, st') => .ok (.done out st')
      | .tensor dim rows =>
        if dim = 2 then
          match forwardModulesInts moduleFn st feats rows with
          | none => .error .evalError
          | some (out, st') => .ok (.done out st')
        else if dim = 3 then .ok .probsRouted
        else .error .unsupportedFormat
      | .other _ => .error .unsupportedFormat
    else .error .assertionError

/-! ## Answer-vocabulary expansion: `ModuleNet.expand_answer_vocab`
    (`module_net.py:177-192`) -/

/-- The classifier's final linear layer (weights as exact rationals standing
    for the float entries). -/
structure LinearLayer where
  weight : List (List ℚ)
  bias : List ℚ
deriving Repr, DecidableEq

/-- Python `max(values)` (`none` = `ValueError` on an empty sequence). -/
def listMax : List Nat → Option Nat
  | [] => none
  | x :: xs => some ((x :: xs).foldl max 0)

/-- `ModuleNet.expand_answer_vocab`: grow the final linear layer to
    `1 + max(answer_to_idx.values())` rows; new rows are
    `normal_().mul_(std)` draws (`std * rnd r c` for the ambient randomness
    source `rnd`) with bias `init_b`, and the first `old_N` rows/biases are
    copied from the old layer.  When the new row count is smaller than the
    old one the `copy_` of the old weights into `new_weight[:old_N]` fails
    (shape mismatch), i.e. `none`. -/
def expandAnswerVocab (fl : LinearLayer) (answerIdxs : List Nat)
    (rnd : Nat → Nat → ℚ) (std initB : ℚ) : Option LinearLayer :=
  match listMax answerIdxs with
  | none => none
  | some mx =>
    let oldN := fl.weight.length
    let D := (fl.weight.getD 0 []).length
    let newN := 1 + mx
    if oldN ≤ newN then
      some { weight := (List.range newN).map (fun r =>
               if r < oldN then fl.weight.getD r []
               else (List.range D).map (fun c => std * rnd r c)),
             bias := (List.range newN).map (fun r =>
               if r < oldN then fl.bias.getD r 0 else initB) }
    else none

def dotQ (u v : List ℚ) : ℚ := ((u.zip v).map (fun p => p.1 * p.2)).sum

/-- The classifier logit of answer id `r` on (flattened) input `x`. -/
def logit (fl : LinearLayer) (x : List ℚ) (r : Nat) : ℚ :=
  dotQ (fl.weight.getD r []) x + fl.bias.getD r 0

-- ===== THEOREMS =====

theorem getD_snoc_lt [Inhabited α] (l : List α) (x : α) (k : Nat) (h : k < l.length) :
    (l ++ [x]).getD k default = l.getD k default := by
  simp [List.getD, List.getElem?_append_left h]

theorem getD_snoc_self [Inhabited α] (l : List α) (x : α) :
    (l ++ [x]).getD l.length default = x := by
  simp [List.getD]

/-- Characterization of the inner loop of `_forward_modules_json`: when every
    operator is registered and every node only references earlier nodes, the
    loop succeeds and extends the accumulator by one output per node, where the
    `j`-th new output applies the node's module to the example's feature map
    (for `'scene'`) or to the outputs at its listed input indices. -/
theorem runNodes_spec [Inhabited α] (moduleFn : Nat → List α → α)
    (fm : List (String × Nat)) (feat : α) :
    ∀ (nodes : List ProgNode) (outs : List α),
    (∀ f ∈ nodes, (alookup fm f.function).isSome) →
    (∀ j, j < nodes.length → ∀ k ∈ (nodes.getD j default).inputs, k < outs.length + j) →
    ∃ res, runNodes moduleFn fm feat nodes outs = some res ∧
      res.length = outs.length + nodes.length ∧
      (∀ k, k < outs.length → res.getD k default = outs.getD k default) ∧
      (∀ j, j < nodes.length →
        res.getD (outs.length + j) default =
          (if (nodes.getD j default).function = "scene"
           then modOf moduleFn fm "scene" [feat]
           else modOf moduleFn fm (nodes.getD j default).function
                  ((nodes.getD j default).inputs.map (fun k => res.getD k default)))) := by
  intro nodes
  induction nodes with
  | nil =>
    intro outs _ _
    exact ⟨outs, rfl, by simp, fun k _ => rfl, fun j hj => absurd hj (by simp)⟩
  | cons f rest ih =>
    intro outs hlk hwf
    obtain ⟨m, hm⟩ := Option.isSome_iff_exists.mp (hlk f (List.mem_cons_self f rest))
    have hbnd : ¬ f.function = "scene" → ∀ k ∈ f.inputs, k < outs.length := by
      intro _ k hk
      simpa using hwf 0 (by simp) k (by simpa using hk)
    -- the value appended for node `f`, as the code computes it
    set v : α := if f.function = "scene" then moduleFn m [feat]
      else moduleFn m (f.inputs.map (fun k => outs.getD k default)) with hv
    have heq : runNodes moduleFn fm feat (f :: rest) outs
        = runNodes moduleFn fm feat rest (outs ++ [v]) := by
      by_cases hf : f.function = "scene"
      · simp only [runNodes, hm]
        rw [if_pos hf, hv, if_pos hf]
      · have hall : f.inputs.all (fun k => decide (k < outs.length)) = true := by
          rw [List.all_eq_true]
          intro k hk
          exact decide_eq_true (hbnd hf k hk)
        simp only [runNodes, hm]
        rw [if_neg hf, if_pos hall, hv, if_neg hf]
    have hrec := ih (outs ++ [v])
      (fun g hg => hlk g (List.mem_cons_of_mem f hg))
      (by
        intro j hj k hk
        have := hwf (j + 1) (by simpa using Nat.succ_lt_succ hj)
          k (by simpa using hk)
        have hL : (outs ++ [v]).length = outs.length + 1 := by simp
        omega)
    obtain ⟨res, hrun, hlen, hstab, hstep⟩ := hrec
    have hL : (outs ++ [v]).length = outs.length + 1 := by simp
    refine ⟨res, by rw [heq]; exact hrun, by rw [hlen, hL]; simp; omega, ?_, ?_⟩
    · intro k hk
      rw [hstab k (by omega), getD_snoc_lt _ _ _ hk]
    · intro j hj
      match j with
      | 0 =>
        have h0 : res.getD outs.length default = v := by
          rw [hstab outs.length (by omega), getD_snoc_self]
        by_cases hf : f.function = "scene"
        · have hm' : alookup fm "scene" = some m := hf ▸ hm
          simp only [Nat.add_zero, List.getD_cons_zero, if_pos hf]
          rw [h0, hv, if_pos hf]
          simp [modOf, hm']
        · simp only [Nat.add_zero, List.getD_cons_zero, if_neg hf]
          rw [h0, hv, if_neg hf]
          simp only [modOf, hm, Option.getD_some]
          congr 1
          refine List.map_congr_left ?_
          intro k hk
          rw [hstab k (by have := hbnd hf k hk; omega), getD_snoc_lt _ _ _ (hbnd hf k hk)]
      | j + 1 =>
        have := hstep j (by simpa using Nat.lt_of_succ_lt_succ hj)
        rw [hL] at this
        simp only [List.getD_cons_succ]
        rw [show outs.length + (j + 1) = outs.length + 1 + j by omega]
        exact this

theorem getLast?_eq_getD_of_ne_nil [Inhabited α] (l : List α) (h : l ≠ []) :
    l.getLast? = some (l.getD (l.length - 1) default) := by
  rw [List.getLast?_eq_getElem?, List.getD]
  have hl : l.length - 1 < l.length := by
    cases l with
    | nil => exact absurd rfl h
    | cons a t => simp
  simp [List.getElem?_eq_getElem hl]

/-- Characterization of the per-example loop of `_forward_modules_json`: under
    the same hypotheses as `runNodes_spec` (applied per listed example), the
    loop succeeds and the `idx`-th final output is the last node-output of
    example `ixs[idx]`. -/
theorem jsonLoop_spec [Inhabited α] (moduleFn : Nat → List α → α)
    (fm : List (String × Nat)) (feats : List α) (program : List (List ProgNode)) :
    ∀ ixs : List Nat,
    (∀ i ∈ ixs, program.getD i [] ≠ []) →
    (∀ i ∈ ixs, ∀ f ∈ program.getD i [], (alookup fm f.function).isSome) →
    (∀ i ∈ ixs, ∀ j, j < (program.getD i []).length →
      ∀ k ∈ ((program.getD i []).getD j default).inputs, k < j) →
    ∃ allOuts finals, jsonLoop moduleFn fm feats program ixs = some (allOuts, finals) ∧
      finals.length = ixs.length ∧
      (∀ idx, idx < ixs.length → ∃ res : List α,
        runNodes moduleFn fm (feats.getD (ixs.getD idx 0) default)
            (program.getD (ixs.getD idx 0) []) [] = some res ∧
        finals.getD idx default = res.getD (res.length - 1) default) := by
  intro ixs
  induction ixs with
  | nil => exact fun _ _ _ => ⟨[], [], rfl, rfl, fun idx h => absurd h (by simp)⟩
  | cons i is ih =>
    intro hne hlk hwf
    obtain ⟨res, hres, hreslen, -, -⟩ :=
      runNodes_spec moduleFn fm (feats.getD i default) (program.getD i []) []
        (hlk i (by simp))
        (by intro j hj k hk; simpa using hwf i (by simp) j hj k hk)
    have hresne : res ≠ [] := by
      intro hnil
      have h0 : (program.getD i []).length = 0 := by
        rw [hnil] at hreslen
        simpa using hreslen.symm
      exact hne i (by simp) (List.eq_nil_of_length_eq_zero h0)
    obtain ⟨allOuts, finals, hloop, hflen, hfin⟩ := ih
      (fun a ha => hne a (List.mem_cons_of_mem i ha))
      (fun a ha => hlk a (List.mem_cons_of_mem i ha))
      (fun a ha => hwf a (List.mem_cons_of_mem i ha))
    refine ⟨res :: allOuts, res.getD (res.length - 1) default :: finals, ?_, by simp [hflen], ?_⟩
    · simp only [jsonLoop, hres, Option.bind_eq_bind, Option.some_bind,
        getLast?_eq_getD_of_ne_nil res hresne, hloop]
      rfl
    · intro idx hidx
      match idx with
      | 0 => exact ⟨res, by simpa using hres, by simp⟩
      | idx + 1 =>
        obtain ⟨r, hr, hfr⟩ := hfin idx (by simpa using Nat.lt_of_succ_lt_succ hidx)
        exact ⟨r, by simpa using hr, by simpa using hfr⟩

/-- C1: explicit-form evaluation (`ModuleNet._forward_modules_json`) processes
    each example's node list in order — the `'scene'` node binds that example's
    own feature map, every other node's module is applied to the previously
    computed outputs at the indices the node specifies, the example's result is
    the last node's output, and the batch output concatenates the per-example
    results in input order; in particular, for the vocabulary
    {scene:0, And:2, red:1, square:1} (modules registered in that order) and
    the program [scene, square(0), red(1)], the output equals
    red-module(square-module(scene-module(feature_map))). -/
theorem c1_forward_modules_json {α γ : Type} [Inhabited α] (moduleFn : Nat → List α → α)
    (st : NetState α γ) (feats : List α) (program : List (List ProgNode))
    (hlen : program.length = feats.length)
    (hne : ∀ i, i < feats.length → program.getD i [] ≠ [])
    (hlk : ∀ i, i < feats.length → ∀ f ∈ program.getD i [],
      (alookup st.functionModules f.function).isSome)
    (hwf : ∀ i, i < feats.length → ∀ j, j < (program.getD i []).length →
      ∀ k ∈ ((program.getD i []).getD j default).inputs, k < j) :
    ∃ out st', forwardModulesJson moduleFn st feats program = some (out, st') ∧
      out.length = feats.length ∧
      (∀ i, i < feats.length → ∃ res : List α,
        res.length = (program.getD i []).length ∧
        (∀ j, j < (program.getD i []).length →
          res.getD j default =
            (if ((program.getD i []).getD j default).function = "scene"
             then modOf moduleFn st.functionModules "scene" [feats.getD i default]
             else modOf moduleFn st.functionModules
                    ((program.getD i []).getD j default).function
                    (((program.getD i []).getD j default).inputs.map
                      (fun k => res.getD k default)))) ∧
        out.getD i default = res.getD (res.length - 1) default) ∧
      (∀ (g : Nat → List α → α) (fmap : α) (st₀ : NetState α γ),
        st₀.functionModules = [("scene", 0), ("And", 1), ("red", 2), ("square", 3)] →
        (forwardModulesJson g st₀ [fmap]
            [[⟨"scene", []⟩, ⟨"square", [0]⟩, ⟨"red", [1]⟩]]).map (·.1)
          = some [g 2 [g 3 [g 0 [fmap]]]]) := by
  have hmem : ∀ i ∈ List.range feats.length, i < feats.length := by
    intro i hi; exact List.mem_range.mp hi
  obtain ⟨allOuts, finals, hloop, hflen, hfin⟩ :=
    jsonLoop_spec moduleFn st.functionModules feats program (List.range feats.length)
      (fun i hi => hne i (hmem i hi))
      (fun i hi => hlk i (hmem i hi))
      (fun i hi => hwf i (hmem i hi))
  refine ⟨finals, _, by rw [forwardModulesJson, hloop]; rfl, by simp [hflen], ?_, ?_⟩
  · intro i hi
    obtain ⟨res, hres, hfr⟩ := hfin i (by simpa using hi)
    have hix : (List.range feats.length).getD i 0 = i := by
      simp [List.getD, List.getElem?_range hi]
    rw [hix] at hres
    obtain ⟨res', hres', hlen', -, hstep'⟩ :=
      runNodes_spec moduleFn st.functionModules (feats.getD i default)
        (program.getD i []) []
        (hlk i hi)
        (by intro j hj k hk; simpa using hwf i hi j hj k hk)
    have hinj : res' = res := by
      rw [hres'] at hres
      exact Option.some.inj hres
    subst hinj
    exact ⟨res', by simpa using hlen', by simpa using hstep', hfr⟩
  · intro g fmap st₀ h₀
    simp only [forwardModulesJson, h₀]
    rfl

/-- Witness for `c1_forward_modules_json`: the concrete scenario from the spec,
    with module ids acting on `Nat` values. -/
theorem c1_forward_modules_json_witness :
    (([[⟨"scene", []⟩, ⟨"square", [0]⟩, ⟨"red", [1]⟩]] : List (List ProgNode)).length
        = ([7] : List Nat).length) ∧
    (∃ out st',
      forwardModulesJson (fun m args => m + 10 * args.sum) demoState
        [7] [[⟨"scene", []⟩, ⟨"square", [0]⟩, ⟨"red", [1]⟩]] = some (out, st') ∧
      out.length = 1) := by
  constructor
  · rfl
  · obtain ⟨out, st', h, hlen, -, -⟩ :=
      c1_forward_modules_json (fun m args => m + 10 * args.sum) demoState [7]
        [[⟨"scene", []⟩, ⟨"square", [0]⟩, ⟨"red", [1]⟩]]
        (by rfl)
        (by decide)
        (by decide)
        (by decide)
    exact ⟨out, st', h, hlen⟩

/-! ### Mask and position-range algebra -/

theorem markFoldSt_nil (st : NetState α γ) (i : Nat) : markFoldSt st i [] = st := rfl

theorem markFoldSt_append (st : NetState α γ) (i : Nat) (ps qs : List Nat) :
    markFoldSt (markFoldSt st i ps) i qs = markFoldSt st i (ps ++ qs) := by
  simp [markFoldSt, markFold, List.foldl_append]

theorem markUsedSt_eq_markFoldSt (st : NetState α γ) (i j : Nat) :
    markUsedSt st i j = markFoldSt st i [j] := rfl

theorem framePreserved_refl (st : NetState α γ) : FramePreserved st st :=
  ⟨rfl, rfl, rfl, rfl, rfl, rfl, rfl, rfl, rfl⟩

theorem framePreserved_trans {s1 s2 s3 : NetState α γ}
    (h1 : FramePreserved s1 s2) (h2 : FramePreserved s2 s3) : FramePreserved s1 s3 := by
  obtain ⟨a1, a2, a3, a4, a5, a6, a7, a8, a9⟩ := h1
  obtain ⟨b1, b2, b3, b4, b5, b6, b7, b8, b9⟩ := h2
  exact ⟨b1.trans a1, b2.trans a2, b3.trans a3, b4.trans a4, b5.trans a5,
    b6.trans a6, b7.trans a7, b8.trans a8, b9.trans a9⟩

theorem markFoldSt_frame (st : NetState α γ) (i : Nat) (ps : List Nat) :
    FramePreserved st (markFoldSt st i ps) :=
  ⟨rfl, rfl, rfl, rfl, rfl, rfl, rfl, rfl, rfl⟩

theorem posRange_self (j : Nat) : posRange j j = [] := by simp [posRange]

theorem posRange_eq_cons (j j' : Nat) (h : j < j') :
    posRange j j' = j :: posRange (j + 1) j' := by
  unfold posRange
  rw [show j' - j = (j' - (j + 1)) + 1 by omega, List.range'_succ]

theorem posRange_append (j j₁ j₂ : Nat) (h1 : j ≤ j₁) (h2 : j₁ ≤ j₂) :
    posRange j j₁ ++ posRange j₁ j₂ = posRange j j₂ := by
  unfold posRange
  have h := List.range'_append j (j₁ - j) (j₂ - j₁) 1
  rw [show j + 1 * (j₁ - j) = j₁ by omega, show j₂ - j₁ + (j₁ - j) = j₂ - j by omega] at h
  exact h

theorem usedMarks_self (tok : Nat → String) (row : List Nat) (j : Nat) :
    usedMarks tok row j j = [] := by
  simp [usedMarks, posRange_self]

theorem countStarts_self (tok : Nat → String) (row : List Nat) (j : Nat) :
    countStarts tok row j j = 0 := by
  simp [countStarts, posRange_self]

theorem usedMarks_append (tok : Nat → String) (row : List Nat) (j j₁ j₂ : Nat)
    (h1 : j ≤ j₁) (h2 : j₁ ≤ j₂) :
    usedMarks tok row j j₁ ++ usedMarks tok row j₁ j₂ = usedMarks tok row j j₂ := by
  unfold usedMarks
  rw [← List.filter_append, posRange_append j j₁ j₂ h1 h2]

theorem countStarts_append (tok : Nat → String) (row : List Nat) (j j₁ j₂ : Nat)
    (h1 : j ≤ j₁) (h2 : j₁ ≤ j₂) :
    countStarts tok row j j₂ = countStarts tok row j j₁ + countStarts tok row j₁ j₂ := by
  unfold countStarts
  rw [← posRange_append j j₁ j₂ h1 h2, List.filter_append, List.length_append]

theorem usedMarks_cons_true (tok : Nat → String) (row : List Nat) (j j' : Nat)
    (h : j < j') (hu : isUsedPos tok row j = true) :
    usedMarks tok row j j' = j :: usedMarks tok row (j + 1) j' := by
  unfold usedMarks
  rw [posRange_eq_cons j j' h, List.filter_cons, if_pos hu]

theorem usedMarks_cons_false (tok : Nat → String) (row : List Nat) (j j' : Nat)
    (h : j < j') (hu : isUsedPos tok row j = false) :
    usedMarks tok row j j' = usedMarks tok row (j + 1) j' := by
  unfold usedMarks
  rw [posRange_eq_cons j j' h, List.filter_cons]
  simp [hu]

theorem countStarts_cons (tok : Nat → String) (row : List Nat) (j j' : Nat)
    (h : j < j') :
    countStarts tok row j j' =
      (if isStartPos tok row j then 1 else 0) + countStarts tok row (j + 1) j' := by
  unfold countStarts
  rw [posRange_eq_cons j j' h, List.filter_cons]
  split <;> simp <;> omega

theorem length_filter_partition (a b c : Nat → Bool) :
    ∀ l : List Nat,
    (∀ x ∈ l,
      (a x = true ∧ b x = false ∧ c x = false) ∨
      (a x = false ∧ b x = true ∧ c x = false) ∨
      (a x = false ∧ b x = false ∧ c x = true)) →
    (l.filter a).length + (l.filter b).length + (l.filter c).length = l.length := by
  intro l
  induction l with
  | nil => simp
  | cons x xs ih =>
    intro h
    have hxs := ih (fun y hy => h y (List.mem_cons_of_mem _ hy))
    rcases h x (by simp) with ⟨ha, hb, hc⟩ | ⟨ha, hb, hc⟩ | ⟨ha, hb, hc⟩ <;>
      simp [List.filter_cons, ha, hb, hc] <;> omega

/-- Every position is exactly one of: used, a skipped `<START>`, or a
    fallback (`<NULL>` / out of range). -/
theorem pos_partition (tok : Nat → String) (row : List Nat) (p : Nat) :
    (isUsedPos tok row p = true ∧ isStartPos tok row p = false ∧
      isFallbackPos tok row p = false) ∨
    (isUsedPos tok row p = false ∧ isStartPos tok row p = true ∧
      isFallbackPos tok row p = false) ∨
    (isUsedPos tok row p = false ∧ isStartPos tok row p = false ∧
      isFallbackPos tok row p = true) := by
  unfold isUsedPos isStartPos isFallbackPos
  cases hb1 : decide (p < row.length) <;>
    cases hb2 : (tok (row.getD p 0) == "<NULL>") <;>
      cases hb3 : (tok (row.getD p 0) == "<START>")
  all_goals first
    | exact absurd ((eq_of_beq hb2).symm.trans (eq_of_beq hb3)) (by decide)
    | simp [hb1, hb2, hb3]

/-- Counting corollary of `pos_partition` on the interval `[j, j')`: used
    marks, `<START>` skips and fallback positions partition the interval. -/
theorem usedMarks_length_partition (tok : Nat → String) (row : List Nat) (j j' : Nat)
    (h : j ≤ j') :
    (usedMarks tok row j j').length + countStarts tok row j j' +
      countFallback tok row j j' = j' - j := by
  have := length_filter_partition (isUsedPos tok row) (isStartPos tok row)
    (isFallbackPos tok row) (posRange j j') (fun x _ => pos_partition tok row x)
  unfold usedMarks countStarts countFallback
  rw [this]
  simp [posRange]

/-! ### The token-consumption master theorem -/

theorem intsApply_scene_eval {m : Nat} [Inhabited α] (moduleFn : Nat → List α → α)
    (feats : List α) (i : Nat)
    (rec : Nat → NetState α γ → Option (α × Nat × NetState α γ))
    (used : Bool) (j : Nat) (st : NetState α γ)
    (h1 : st.useFilm = false)
    (hni : (alookup st.functionModulesNumInputs "scene").isSome)
    (hm : alookup st.functionModules "scene" = some m) :
    intsApply moduleFn feats i rec "scene" used j st
      = some (moduleFn m [feats.getD i default], j + 1,
          if used then markUsedSt st i j else st) := by
  obtain ⟨ni, hni'⟩ := Option.isSome_iff_exists.mp hni
  have e1 : (if used then markUsedSt st i j else st).functionModulesNumInputs
      = st.functionModulesNumInputs := by cases used <;> rfl
  have e2 : (if used then markUsedSt st i j else st).useFilm = st.useFilm := by
    cases used <;> rfl
  have e3 : (if used then markUsedSt st i j else st).functionModules
      = st.functionModules := by cases used <;> rfl
  simp only [intsApply, e1, e2, e3, hni', h1, hm, if_pos rfl]
  simp

theorem intsApply_op_eval {ni m : Nat} [Inhabited α] (moduleFn : Nat → List α → α)
    (feats : List α) (i : Nat)
    (rec : Nat → NetState α γ → Option (α × Nat × NetState α γ))
    (fnStr : String) (hne : fnStr ≠ "scene") (used : Bool) (j : Nat) (st : NetState α γ)
    (h1 : st.useFilm = false)
    (hni : alookup st.functionModulesNumInputs fnStr = some ni)
    (hm : alookup st.functionModules fnStr = some m) :
    intsApply moduleFn feats i rec fnStr used j st
      = match gatherN rec ni (j + 1) (if used then markUsedSt st i j else st) with
        | none => none
        | some (ins, j2, st2) => some (moduleFn m ins, j2, st2) := by
  have e1 : (if used then markUsedSt st i j else st).functionModulesNumInputs
      = st.functionModulesNumInputs := by cases used <;> rfl
  have e2 : (if used then markUsedSt st i j else st).useFilm = st.useFilm := by
    cases used <;> rfl
  have e3 : (if used then markUsedSt st i j else st).functionModules
      = st.functionModules := by cases used <;> rfl
  simp only [intsApply, e1, e2, e3, hni, h1, hm, if_neg hne]
  simp

/-- Consuming `n` sub-expressions with an evaluator satisfying the
    single-expression contract yields `n` sub-trees, threads the position
    monotonically, and marks exactly the used positions of the traversed
    interval. -/
theorem gatherN_spec {α γ : Type} [Inhabited α] (moduleFn : Nat → List α → α)
    (FM NI : List (String × Nat)) (ft : α) (tok : Nat → String) (row : List Nat)
    (i : Nat) (ev : Nat → NetState α γ → Option (α × Nat × NetState α γ))
    (C : Nat → Prop)
    (hmono : ∀ j j', j ≤ j' → C j → C j')
    (hev : ∀ j (st : NetState α γ), st.useFilm = false → st.functionModules = FM →
      st.functionModulesNumInputs = NI → st.programIdxToToken = tok → C j →
      ∃ t j', ev j st = some (evalT (modOf moduleFn FM) ft t, j',
          markFoldSt st i (usedMarks tok row j j')) ∧
        j < j' ∧ treeSize t + countStarts tok row j j' = j' - j) :
    ∀ n j (st : NetState α γ), st.useFilm = false → st.functionModules = FM →
      st.functionModulesNumInputs = NI → st.programIdxToToken = tok → C j →
      ∃ ts j', gatherN ev n j st = some (evalTs (modOf moduleFn FM) ft ts, j',
          markFoldSt st i (usedMarks tok row j j')) ∧
        j ≤ j' ∧ ts.length = n ∧
        treeSizeList ts + countStarts tok row j j' = j' - j := by
  intro n
  induction n with
  | zero =>
    intro j st _ _ _ _ _
    refine ⟨[], j, ?_, le_refl j, rfl, ?_⟩
    · rw [usedMarks_self, markFoldSt_nil]
      rfl
    · rw [countStarts_self]
      simp [treeSizeList]
  | succ n ih =>
    intro j st h1 h2 h3 h4 hC
    obtain ⟨t, j₁, he, hlt, hsz⟩ := hev j st h1 h2 h3 h4 hC
    obtain ⟨ts, j₂, hg, hle, hlenTs, hszs⟩ :=
      ih j₁ (markFoldSt st i (usedMarks tok row j j₁)) h1 h2 h3 h4
        (hmono _ _ (le_of_lt hlt) hC)
    refine ⟨t :: ts, j₂, ?_, le_trans (le_of_lt hlt) hle, by simp [hlenTs], ?_⟩
    · show gatherN ev (n + 1) j st = _
      simp only [gatherN, he, Option.bind_eq_bind, Option.some_bind, hg]
      rw [markFoldSt_append, usedMarks_append tok row j j₁ j₂ (le_of_lt hlt) hle]
      rfl
    · have hsplit := countStarts_append tok row j j₁ j₂ (le_of_lt hlt) hle
      simp only [treeSizeList]
      omega

/-- Master theorem for `_forward_modules_ints_helper` (FiLM disabled): with
    enough fuel, consumption from position `j` parses a tree `t`, returns its
    evaluation under the registered modules together with the next unconsumed
    position `j' > j`, and sets the used-token mask at exactly the used
    positions of `[j, j')`; moreover the number of nodes of `t` plus the
    number of skipped `<START>` positions equals the number of consumed
    positions. -/
theorem intsHelper_spec {α γ : Type} [Inhabited α] (moduleFn : Nat → List α → α)
    (feats : List α) (program : List (List Nat)) (i : Nat)
    (tok : Nat → String) (FM NI : List (String × Nat)) (row : List Nat)
    (hrow : program.getD i [] = row)
    (hscNI : (alookup NI "scene").isSome)
    (hscFM : (alookup FM "scene").isSome)
    (htok : ∀ p, p < row.length →
      tok (row.getD p 0) ≠ "<NULL>" → tok (row.getD p 0) ≠ "<START>" →
      (alookup NI (tok (row.getD p 0))).isSome ∧
      (alookup FM (tok (row.getD p 0))).isSome) :
    ∀ fuel j (st : NetState α γ), st.useFilm = false → st.functionModules = FM →
      st.functionModulesNumInputs = NI → st.programIdxToToken = tok →
      1 ≤ fuel → (row.length + 2 ≤ fuel + j ∨ row.length ≤ j) →
      ∃ t j', intsHelper moduleFn feats program i fuel j st
          = some (evalT (modOf moduleFn FM) (feats.getD i default) t, j',
              markFoldSt st i (usedMarks tok row j j')) ∧
        j < j' ∧
        treeSize t + countStarts tok row j j' = j' - j := by
  intro fuel
  induction fuel with
  | zero =>
    intro j st _ _ _ _ h5 _
    omega
  | succ fuel ih =>
    intro j st h1 h2 h3 h4 _ hc
    have hunfold : intsHelper moduleFn feats program i (fuel + 1) j st
        = intsStep moduleFn feats program i
            (intsHelper moduleFn feats program i fuel) j st := rfl
    by_cases hj : j < row.length
    · -- in-range token
      have hfn : (if j < (program.getD i []).length
          then st.programIdxToToken ((program.getD i []).getD j 0) else "scene")
          = tok (row.getD j 0) := by
        rw [hrow, if_pos hj, h4]
      have hfuel1 : 1 ≤ fuel := by omega
      by_cases hnull : tok (row.getD j 0) = "<NULL>"
      · -- padding token: treated as the 0-arity root, not marked used
        obtain ⟨m, hm⟩ := Option.isSome_iff_exists.mp hscFM
        refine ⟨PTree.node "scene" [PTree.feat], j + 1, ?_, by omega, ?_⟩
        · rw [hunfold, intsStep]
          simp only [hfn, if_pos hnull]
          rw [intsApply_scene_eval moduleFn feats i _ false j st h1 (h3 ▸ hscNI) (h2 ▸ hm)]
          have hu : isUsedPos tok row j = false := by
            unfold isUsedPos
            rw [hnull]
            simp
          rw [usedMarks_cons_false tok row j (j + 1) (by omega) hu, usedMarks_self,
            markFoldSt_nil]
          simp only [evalT, evalTs, modOf]
          rw [hm]
          rfl
        · have hs : isStartPos tok row j = false := by
            unfold isStartPos
            rw [hnull, show (("<NULL>" : String) == "<START>") = false from by decide]
            simp
          rw [countStarts_cons tok row j (j + 1) (by omega), countStarts_self, hs]
          simp [treeSize, treeSizeList]
      · by_cases hstart : tok (row.getD j 0) = "<START>"
        · -- start token: skipped, nothing marked, no module invoked
          obtain ⟨t, j', hrun, hlt, hsz⟩ := ih (j + 1) st h1 h2 h3 h4 hfuel1 (by omega)
          refine ⟨t, j', ?_, by omega, ?_⟩
          · rw [hunfold, intsStep]
            simp only [hfn, if_neg hnull, if_pos hstart]
            rw [hrun]
            have hu : isUsedPos tok row j = false := by
              unfold isUsedPos
              rw [hstart]
              simp
            rw [usedMarks_cons_false tok row j j' (by omega) hu]
          · have hs : isStartPos tok row j = true := by
              unfold isStartPos
              rw [hstart, decide_eq_true hj]
              simp
            rw [countStarts_cons tok row j j' (by omega), hs]
            simp only [if_true]
            omega
        · -- an operator token: marked used, then consumed
          obtain ⟨hniS, hmS⟩ := htok j hj hnull hstart
          obtain ⟨ni, hni⟩ := Option.isSome_iff_exists.mp hniS
          obtain ⟨m, hm⟩ := Option.isSome_iff_exists.mp hmS
          have hdec : decide (j < (program.getD i []).length) = true := by
            rw [hrow]; exact decide_eq_true hj
          have hu : isUsedPos tok row j = true := by
            unfold isUsedPos
            rw [decide_eq_true hj, beq_eq_false_iff_ne.mpr hnull,
              beq_eq_false_iff_ne.mpr hstart]
            simp
          have hs : isStartPos tok row j = false := by
            unfold isStartPos
            rw [beq_eq_false_iff_ne.mpr hstart]
            simp
          by_cases hsc : tok (row.getD j 0) = "scene"
          · -- an explicit in-range 'scene' token: marked used, binds the feature map
            refine ⟨PTree.node "scene" [PTree.feat], j + 1, ?_, by omega, ?_⟩
            · rw [hunfold, intsStep]
              simp only [hfn, if_neg hnull, if_neg hstart, hdec, hsc]
              rw [intsApply_scene_eval moduleFn feats i _ true j st h1
                (h3 ▸ hscNI) (h2 ▸ hsc ▸ hm)]
              rw [usedMarks_cons_true tok row j (j + 1) (by omega) hu, usedMarks_self]
              simp only [if_true, markUsedSt_eq_markFoldSt]
              have hm' : alookup FM "scene" = some m := hsc ▸ hm
              simp only [evalT, evalTs, modOf]
              rw [hm']
              rfl
            · rw [countStarts_cons tok row j (j + 1) (by omega), countStarts_self, hs]
              simp [treeSize, treeSizeList]
          · -- a proper operator: gather arity-many sub-expressions
            obtain ⟨ts, j₂, hg, hle, hlenTs, hszs⟩ :=
              gatherN_spec moduleFn FM NI (feats.getD i default) tok row i
                (intsHelper moduleFn feats program i fuel)
                (fun j₀ => row.length + 2 ≤ fuel + j₀ ∨ row.length ≤ j₀)
                (by intro a b hab hCa; omega)
                (fun j₀ st₀ a b c d hC => ih j₀ st₀ a b c d hfuel1 hC)
                ni (j + 1) (markUsedSt st i j) h1 h2 h3 h4 (by omega)
            refine ⟨PTree.node (tok (row.getD j 0)) ts, j₂, ?_, by omega, ?_⟩
            · rw [hunfold, intsStep]
              simp only [hfn, if_neg hnull, if_neg hstart, hdec]
              rw [intsApply_op_eval moduleFn feats i _ (tok (row.getD j 0)) hsc true j st
                h1 (h3 ▸ hni) (h2 ▸ hm)]
              simp only [if_true]
              rw [hg, markUsedSt_eq_markFoldSt, markFoldSt_append]
              rw [show ([j] ++ usedMarks tok row (j + 1) j₂) = usedMarks tok row j j₂ by
                rw [usedMarks_cons_true tok row j j₂ (by omega) hu]; rfl]
              simp only [evalT, modOf]
              rw [hm]
              rfl
            · rw [countStarts_cons tok row j j₂ (by omega), hs]
              simp only [Bool.false_eq_true, if_false, treeSize]
              omega
    · -- past the end of the row: fall back to the 0-arity root, unmarked
      have hfn : (if j < (program.getD i []).length
          then st.programIdxToToken ((program.getD i []).getD j 0) else "scene")
          = "scene" := by
        rw [hrow, if_neg hj]
      obtain ⟨m, hm⟩ := Option.isSome_iff_exists.mp hscFM
      refine ⟨PTree.node "scene" [PTree.feat], j + 1, ?_, by omega, ?_⟩
      · rw [hunfold, intsStep]
        simp only [hfn, if_neg (by decide : ¬("scene" : String) = "<NULL>"),
          if_neg (by decide : ¬("scene" : String) = "<START>")]
        have hdec : decide (j < (program.getD i []).length) = false := by
          rw [hrow]; exact decide_eq_false hj
        rw [hdec]
        rw [intsApply_scene_eval moduleFn feats i _ false j st h1 (h3 ▸ hscNI) (h2 ▸ hm)]
        have hu : isUsedPos tok row j = false := by
          unfold isUsedPos
          rw [decide_eq_false hj]
          simp
        rw [usedMarks_cons_false tok row j (j + 1) (by omega) hu, usedMarks_self,
          markFoldSt_nil]
        simp only [evalT, evalTs, modOf]
        rw [hm]
        rfl
      · have hs : isStartPos tok row j = false := by
          unfold isStartPos
          rw [decide_eq_false hj]
          simp
        rw [countStarts_cons tok row j (j + 1) (by omega), countStarts_self, hs]
        simp [treeSize, treeSizeList]

/-! ### Mask rows and the per-batch loop -/

theorem markFold_length (m : List (List Bool)) (i : Nat) (ps : List Nat) :
    (markFold m i ps).length = m.length := by
  induction ps generalizing m with
  | nil => rfl
  | cons p ps ih =>
    show (markFold (markUsedMask m i p) i ps).length = m.length
    rw [ih, markUsedMask, List.length_set]

theorem markFold_getD_other (m : List (List Bool)) (i : Nat) (ps : List Nat)
    (r : Nat) (h : r ≠ i) :
    (markFold m i ps).getD r [] = m.getD r [] := by
  induction ps generalizing m with
  | nil => rfl
  | cons p ps ih =>
    show (markFold (markUsedMask m i p) i ps).getD r [] = m.getD r []
    rw [ih, markUsedMask, List.getD, List.getD, List.get?_set_ne _ _ (Ne.symm h)]
    rfl

theorem markFold_getD_self (m : List (List Bool)) (i : Nat) (ps : List Nat)
    (hi : i < m.length) :
    (markFold m i ps).getD i [] = rowMark (m.getD i []) ps := by
  induction ps generalizing m with
  | nil => rfl
  | cons p ps ih =>
    show (markFold (markUsedMask m i p) i ps).getD i [] = _
    rw [ih (markUsedMask m i p) (by rw [markUsedMask, List.length_set]; exact hi)]
    have : (markUsedMask m i p).getD i [] = (m.getD i []).set p true := by
      rw [markUsedMask, List.getD, List.get?_set_eq_of_lt _ hi]
      rfl
    rw [this]
    rfl

theorem rowMark_length (r : List Bool) (ps : List Nat) :
    (rowMark r ps).length = r.length := by
  induction ps generalizing r with
  | nil => rfl
  | cons p ps ih =>
    show (rowMark (r.set p true) ps).length = r.length
    rw [ih, List.length_set]

/-- Content of a marked row: a position reads `true` exactly when it was
    already `true` or is a listed in-bounds position. -/
theorem rowMark_getD (r : List Bool) (ps : List Nat) (hb : ∀ p ∈ ps, p < r.length)
    (q : Nat) :
    (rowMark r ps).getD q false = (r.getD q false || decide (q ∈ ps)) := by
  induction ps generalizing r with
  | nil => simp [rowMark]
  | cons p ps ih =>
    have hb' : ∀ x ∈ ps, x < (r.set p true).length := by
      intro x hx
      rw [List.length_set]
      exact hb x (List.mem_cons_of_mem _ hx)
    show (rowMark (r.set p true) ps).getD q false = _
    rw [ih (r.set p true) hb']
    by_cases hq : q = p
    · subst hq
      have hqlen : q < r.length := hb q (by simp)
      rw [List.getD, List.get?_set_eq_of_lt _ hqlen]
      simp
    · rw [List.getD, List.get?_set_ne _ _ (fun he => hq he.symm)]
      have : decide (q ∈ p :: ps) = decide (q ∈ ps) := by
        simp [List.mem_cons, hq]
      rw [← List.getD, this]

/-- Per-batch loop characterization of `_forward_modules_ints`: with every
    listed example's tokens resolvable, the loop succeeds, produces one output
    per example (the evaluation of that example's parsed tree), touches no
    state component except the used-token mask, and rewrites each listed
    example's mask row to exactly its own used positions. -/
theorem intsLoop_spec {α γ : Type} [Inhabited α] (moduleFn : Nat → List α → α)
    (feats : List α) (program : List (List Nat))
    (tok : Nat → String) (FM NI : List (String × Nat))
    (hscNI : (alookup NI "scene").isSome)
    (hscFM : (alookup FM "scene").isSome) :
    ∀ ixs : List Nat, ixs.Nodup →
    (∀ i ∈ ixs, ∀ p, p < (program.getD i []).length →
      tok ((program.getD i []).getD p 0) ≠ "<NULL>" →
      tok ((program.getD i []).getD p 0) ≠ "<START>" →
      (alookup NI (tok ((program.getD i []).getD p 0))).isSome ∧
      (alookup FM (tok ((program.getD i []).getD p 0))).isSome) →
    ∀ st : NetState α γ, st.useFilm = false → st.functionModules = FM →
      st.functionModulesNumInputs = NI → st.programIdxToToken = tok →
    ∃ outs stF, intsLoop moduleFn feats program ixs st = some (outs, stF) ∧
      outs.length = ixs.length ∧
      FramePreserved st stF ∧
      stF.usedFns.length = st.usedFns.length ∧
      (∀ r, r ∉ ixs → stF.usedFns.getD r [] = st.usedFns.getD r []) ∧
      (∀ idx, idx < ixs.length →
        ∃ t j', outs.getD idx default
            = evalT (modOf moduleFn FM) (feats.getD (ixs.getD idx 0) default) t ∧
          0 < j' ∧
          treeSize t + countStarts tok (program.getD (ixs.getD idx 0) []) 0 j' = j' ∧
          (ixs.getD idx 0 < st.usedFns.length →
            stF.usedFns.getD (ixs.getD idx 0) []
              = rowMark (st.usedFns.getD (ixs.getD idx 0) [])
                  (usedMarks tok (program.getD (ixs.getD idx 0) []) 0 j'))) := by
  intro ixs
  induction ixs with
  | nil =>
    intro _ _ st _ _ _ _
    exact ⟨[], st, rfl, rfl, framePreserved_refl st, rfl,
      fun r _ => rfl, fun idx h => absurd h (by simp)⟩
  | cons i is ih =>
    intro hnd htoks st h1 h2 h3 h4
    have hndi : i ∉ is := (List.nodup_cons.mp hnd).1
    have hnd' : is.Nodup := (List.nodup_cons.mp hnd).2
    obtain ⟨t, j', hrun, hlt, hsz⟩ :=
      intsHelper_spec moduleFn feats program i tok FM NI (program.getD i []) rfl
        hscNI hscFM (htoks i (by simp))
        ((program.getD i []).length + 2) 0 st h1 h2 h3 h4 (by omega) (by omega)
    obtain ⟨outs, stF, hloop, hlen, hframe, hmlen, hother, hper⟩ :=
      ih hnd' (fun a ha => htoks a (List.mem_cons_of_mem _ ha))
        (markFoldSt st i (usedMarks tok (program.getD i []) 0 j')) h1 h2 h3 h4
    refine ⟨evalT (modOf moduleFn FM) (feats.getD i default) t :: outs, stF, ?_,
      by simp [hlen], framePreserved_trans (markFoldSt_frame st i _) hframe, ?_, ?_, ?_⟩
    · show intsLoop moduleFn feats program (i :: is) st = _
      simp only [intsLoop, hrun, Option.bind_eq_bind, Option.some_bind, hloop]
      rfl
    · rw [hmlen]
      show (markFold st.usedFns i _).length = st.usedFns.length
      exact markFold_length st.usedFns i _
    · intro r hr
      have hri : r ≠ i := by intro he; exact hr (he ▸ List.mem_cons_self i is)
      have hris : r ∉ is := fun h => hr (List.mem_cons_of_mem _ h)
      rw [hother r hris]
      exact markFold_getD_other st.usedFns i _ r hri
    · intro idx hidx
      match idx with
      | 0 =>
        refine ⟨t, j', by simpa using rfl, hlt, by simpa using hsz, ?_⟩
        intro hibound
        have hrow := hother i hndi
        simp only [List.getD_cons_zero]
        rw [hrow]
        exact markFold_getD_self st.usedFns i _ hibound
      | idx + 1 =>
        obtain ⟨t', j₂, hv, hpos, hs, hmask⟩ := hper idx (by simpa using Nat.lt_of_succ_lt_succ hidx)
        refine ⟨t', j₂, by simpa using hv, hpos, by simpa using hs, ?_⟩
        intro hibound
        have hmem : is.getD idx 0 ∈ is := by
          have hlt : idx < is.length := by simpa using Nat.lt_of_succ_lt_succ hidx
          rw [List.getD, List.get?_eq_get hlt]
          exact List.get_mem is idx hlt
        have hne : is.getD idx 0 ≠ i := fun he => hndi (he ▸ hmem)
        have hb' : is.getD idx 0 < (markFoldSt st i (usedMarks tok (program.getD i []) 0 j')).usedFns.length := by
          show _ < (markFold st.usedFns i _).length
          rw [markFold_length]
          simpa using hibound
        have := hmask hb'
        simp only [List.getD_cons_succ]
        rw [this]
        congr 1
        exact markFold_getD_other st.usedFns i _ _ hne

theorem mem_usedMarks (tok : Nat → String) (row : List Nat) (j' p : Nat) :
    p ∈ usedMarks tok row 0 j' ↔ (isUsedPos tok row p = true ∧ p < j') := by
  unfold usedMarks posRange
  rw [List.mem_filter]
  constructor
  · rintro ⟨hr, hq⟩
    have := List.mem_range'_1.mp hr
    exact ⟨hq, by omega⟩
  · rintro ⟨hq, hp⟩
    exact ⟨List.mem_range'_1.mpr (by omega), hq⟩

theorem usedMarks_lt_row_length (tok : Nat → String) (row : List Nat) (j j' : Nat) :
    ∀ p ∈ usedMarks tok row j j', p < row.length := by
  intro p hp
  have := (List.mem_filter.mp hp).2
  unfold isUsedPos at this
  have h1 := Bool.and_elim_left (Bool.and_elim_left this)
  exact of_decide_eq_true h1

theorem zeroMask_row (program : List (List Nat)) (i : Nat) (hi : i < program.length) :
    (zeroMask program).getD i [] = (program.getD i []).map (fun _ => false) := by
  unfold zeroMask
  rw [List.getD, List.getD, List.get?_map, List.get?_eq_get hi]
  rfl

theorem constFalse_getD (row : List Nat) (p : Nat) :
    ((row.map (fun _ => false)).getD p false) = false := by
  rw [List.getD, List.get?_map]
  cases row.get? p <;> rfl

/-- C2 (amended): token-sequence consumption treats a padding/null token as
    the 0-arity root `'scene'` bound to the feature map and not marked used
    (likewise an out-of-range position), skips a start-of-sequence token by
    advancing the position without invoking a module or marking it, threads
    the position counter through arity-many recursive consumptions, and the
    resulting used-token mask marks exactly the in-range non-sentinel
    positions of the consumed interval; the total used count equals the node
    count of the parsed tree minus the number of fallback-supplied `'scene'`
    nodes (padding or out-of-range positions) — in particular it equals the
    node count of the equivalent explicit-form program exactly when no node
    comes from the fallback. -/
theorem c2_forward_modules_ints {α γ : Type} [Inhabited α]
    (moduleFn : Nat → List α → α) (st : NetState α γ) (feats : List α)
    (program : List (List Nat))
    (h1 : st.useFilm = false)
    (hscNI : (alookup st.functionModulesNumInputs "scene").isSome)
    (hscFM : (alookup st.functionModules "scene").isSome)
    (hlen : program.length = feats.length)
    (htoks : ∀ i, i < feats.length → ∀ p, p < (program.getD i []).length →
      st.programIdxToToken ((program.getD i []).getD p 0) ≠ "<NULL>" →
      st.programIdxToToken ((program.getD i []).getD p 0) ≠ "<START>" →
      (alookup st.functionModulesNumInputs
        (st.programIdxToToken ((program.getD i []).getD p 0))).isSome ∧
      (alookup st.functionModules
        (st.programIdxToToken ((program.getD i []).getD p 0))).isSome) :
    (∀ i j fuel m, j < (program.getD i []).length →
       st.programIdxToToken ((program.getD i []).getD j 0) = "<NULL>" →
       alookup st.functionModules "scene" = some m →
       intsHelper moduleFn feats program i (fuel + 1) j st
         = some (moduleFn m [feats.getD i default], j + 1, st)) ∧
    (∀ i j fuel m, (program.getD i []).length ≤ j →
       alookup st.functionModules "scene" = some m →
       intsHelper moduleFn feats program i (fuel + 1) j st
         = some (moduleFn m [feats.getD i default], j + 1, st)) ∧
    (∀ i j fuel, j < (program.getD i []).length →
       st.programIdxToToken ((program.getD i []).getD j 0) = "<START>" →
       intsHelper moduleFn feats program i (fuel + 1) j st
         = intsHelper moduleFn feats program i fuel (j + 1) st) ∧
    (∃ outs stF, forwardModulesInts moduleFn st feats program = some (outs, stF) ∧
      outs.length = feats.length ∧
      stF.usedFns.length = program.length ∧
      (∀ i, i < feats.length → ∃ t j',
        outs.getD i default
          = evalT (modOf moduleFn st.functionModules) (feats.getD i default) t ∧
        0 < j' ∧
        (∀ p, (stF.usedFns.getD i []).getD p false
            = (isUsedPos st.programIdxToToken (program.getD i []) p
                && decide (p < j'))) ∧
        (usedMarks st.programIdxToToken (program.getD i []) 0 j').length
            + countFallback st.programIdxToToken (program.getD i []) 0 j'
          = treeSize t ∧
        (countFallback st.programIdxToToken (program.getD i []) 0 j' = 0 →
          (usedMarks st.programIdxToToken (program.getD i []) 0 j').length
            = treeSize t))) := by
  obtain ⟨msc, hmsc⟩ := Option.isSome_iff_exists.mp hscFM
  refine ⟨?_, ?_, ?_, ?_⟩
  · -- padding token
    intro i j fuel m hj hnull hm
    have hunfold : intsHelper moduleFn feats program i (fuel + 1) j st
        = intsStep moduleFn feats program i
            (intsHelper moduleFn feats program i fuel) j st := rfl
    rw [hunfold, intsStep]
    have hfn : (if j < (program.getD i []).length
        then st.programIdxToToken ((program.getD i []).getD j 0) else "scene")
        = st.programIdxToToken ((program.getD i []).getD j 0) := if_pos hj
    simp only [hfn, if_pos hnull]
    rw [intsApply_scene_eval moduleFn feats i _ false j st h1 hscNI hm]
    rfl
  · -- out-of-range position
    intro i j fuel m hj hm
    have hunfold : intsHelper moduleFn feats program i (fuel + 1) j st
        = intsStep moduleFn feats program i
            (intsHelper moduleFn feats program i fuel) j st := rfl
    rw [hunfold, intsStep]
    have hfn : (if j < (program.getD i []).length
        then st.programIdxToToken ((program.getD i []).getD j 0) else "scene")
        = "scene" := if_neg (not_lt.mpr hj)
    simp only [hfn, if_neg (by decide : ¬("scene" : String) = "<NULL>"),
      if_neg (by decide : ¬("scene" : String) = "<START>")]
    rw [decide_eq_false (not_lt.mpr hj)]
    rw [intsApply_scene_eval moduleFn feats i _ false j st h1 hscNI hm]
    rfl
  · -- start-of-sequence token
    intro i j fuel hj hstart
    have hunfold : intsHelper moduleFn feats program i (fuel + 1) j st
        = intsStep moduleFn feats program i
            (intsHelper moduleFn feats program i fuel) j st := rfl
    rw [hunfold, intsStep]
    have hfn : (if j < (program.getD i []).length
        then st.programIdxToToken ((program.getD i []).getD j 0) else "scene")
        = st.programIdxToToken ((program.getD i []).getD j 0) := if_pos hj
    have hnn : st.programIdxToToken ((program.getD i []).getD j 0) ≠ "<NULL>" := by
      rw [hstart]; decide
    simp only [hfn, if_neg hnn, if_pos hstart]
  · -- the whole batch
    obtain ⟨outs, stF, hloop, hlenOuts, hframe, hmlen, -, hper⟩ :=
      intsLoop_spec moduleFn feats program st.programIdxToToken
        st.functionModules st.functionModulesNumInputs hscNI hscFM
        (List.range feats.length) (List.nodup_range feats.length)
        (by
          intro a ha
          exact htoks a (List.mem_range.mp ha))
        { st with usedFns := zeroMask program } h1 rfl rfl rfl
    refine ⟨outs, stF, hloop, by simpa using hlenOuts, ?_, ?_⟩
    · rw [hmlen]
      show (zeroMask program).length = program.length
      simpa [zeroMask] using rfl
    · intro i hi
      obtain ⟨t, j', hv, hpos, hsz, hmask⟩ := hper i (by simpa using hi)
      have hix : (List.range feats.length).getD i 0 = i := by
        simp [List.getD, List.getElem?_range hi]
      rw [hix] at hv hsz hmask
      have hiprog : i < program.length := by omega
      have hmaskbound : i < ({ st with usedFns := zeroMask program } : NetState α γ).usedFns.length := by
        show i < (zeroMask program).length
        simpa [zeroMask] using hiprog
      have hrow := hmask hmaskbound
      have hzrow : ({ st with usedFns := zeroMask program } : NetState α γ).usedFns.getD i []
          = (program.getD i []).map (fun _ => false) := zeroMask_row program i hiprog
      rw [hzrow] at hrow
      refine ⟨t, j', hv, hpos, ?_, ?_, ?_⟩
      · intro p
        rw [hrow, rowMark_getD _ _
          (by
            intro q hq
            rw [List.length_map]
            exact usedMarks_lt_row_length st.programIdxToToken (program.getD i []) 0 j' q hq) p]
        rw [constFalse_getD]
        rw [Bool.false_or]
        by_cases hmem : p ∈ usedMarks st.programIdxToToken (program.getD i []) 0 j'
        · obtain ⟨hu, hp⟩ := (mem_usedMarks _ _ _ _).mp hmem
          rw [decide_eq_true hmem, hu, decide_eq_true hp]
          rfl
        · rw [decide_eq_false hmem]
          cases hu : isUsedPos st.programIdxToToken (program.getD i []) p with
          | false => rfl
          | true =>
            have hp : ¬ p < j' := fun hp =>
              hmem ((mem_usedMarks _ _ _ _).mpr ⟨hu, hp⟩)
            rw [decide_eq_false hp]
            rfl
      · have hpart := usedMarks_length_partition st.programIdxToToken
          (program.getD i []) 0 j' (by omega)
        omega
      · intro hzero
        have hpart := usedMarks_length_partition st.programIdxToToken
          (program.getD i []) 0 j' (by omega)
        omega

/-- Counterexample to C2's used-count clause: for the generate_flatqa
    vocabulary and the token row `[And, red, <NULL>, square, <NULL>]`, the
    token-sequence evaluator parses `And(red(scene), square(scene))` — the
    batch output (with node-counting modules, `1 + sum of inputs`) equals `5`,
    and the 5-node explicit-form program
    `[scene, red(0), scene, square(2), And(1,3)]` evaluates to the identical
    batch output — yet the used-token mask marks only 3 positions, because the
    two `'scene'` nodes supplied by the `<NULL>` fallback are never marked:
    the total used count (3) differs from the node count (5) of the
    equivalent explicit-form program. -/
theorem c2_used_count_counterexample :
    ((forwardModulesInts (fun _ args => 1 + args.sum) flatqaState [0]
        [[4, 5, 0, 6, 0]]).map (fun r => (r.1, r.2.usedFns))
      = some ([5], [[true, true, false, true, false]])) ∧
    ((forwardModulesJson (fun _ args => 1 + args.sum) flatqaState [0]
        [[⟨"scene", []⟩, ⟨"red", [0]⟩, ⟨"scene", []⟩, ⟨"square", [2]⟩,
          ⟨"And", [1, 3]⟩]]).map (·.1) = some [5]) ∧
    (([⟨"scene", []⟩, ⟨"red", [0]⟩, ⟨"scene", []⟩, ⟨"square", [2]⟩,
        ⟨"And", [1, 3]⟩] : List ProgNode).length = 5) ∧
    ([true, true, false, true, false].count true = 3) ∧
    (3 ≠ 5) :=
  ⟨by decide, by decide, by decide, by decide, by decide⟩

/-- Witness for `c2_forward_modules_ints`: the spec's concrete scenario
    `<START> And red scene square scene <END>` over the generate_flatqa
    vocabulary. -/
theorem c2_forward_modules_ints_witness :
    (alookup flatqaState.functionModules "scene").isSome = true ∧
    (∃ outs stF, forwardModulesInts (fun _ args => 1 + args.sum) flatqaState [0]
        [[1, 4, 5, 3, 6, 3, 2]] = some (outs, stF) ∧ outs.length = 1) := by
  refine ⟨by decide, ?_⟩
  obtain ⟨-, -, -, outs, stF, hrun, hlenOuts, -, -⟩ :=
    c2_forward_modules_ints (fun _ args => 1 + args.sum) flatqaState [0]
      [[1, 4, 5, 3, 6, 3, 2]] rfl (by decide) (by decide) rfl (by decide)
  exact ⟨outs, stF, hrun, hlenOuts⟩

/-! ### Frame properties of evaluation (C8) -/

theorem markUsedSt_frame (st : NetState α γ) (i j : Nat) :
    FramePreserved st (markUsedSt st i j) :=
  ⟨rfl, rfl, rfl, rfl, rfl, rfl, rfl, rfl, rfl⟩

theorem gatherN_frame {α γ : Type} [Inhabited α]
    (ev : Nat → NetState α γ → Option (α × Nat × NetState α γ))
    (hev : ∀ j st v j' st', ev j st = some (v, j', st') → FramePreserved st st') :
    ∀ n j (st : NetState α γ) vs j' st',
      gatherN ev n j st = some (vs, j', st') → FramePreserved st st' := by
  intro n
  induction n with
  | zero =>
    intro j st vs j' st' h
    simp only [gatherN, Option.some.injEq, Prod.mk.injEq] at h
    exact h.2.2 ▸ framePreserved_refl st
  | succ n ih =>
    intro j st vs j' st' h
    simp only [gatherN, Option.bind_eq_bind] at h
    cases he : ev j st with
    | none => rw [he] at h; simp at h
    | some r1 =>
      obtain ⟨v1, j1, st1⟩ := r1
      rw [he] at h
      simp only [Option.some_bind] at h
      cases hg : gatherN ev n j1 st1 with
      | none => rw [hg] at h; simp at h
      | some r2 =>
        obtain ⟨vs2, j2, st2⟩ := r2
        rw [hg] at h
        simp only [Option.some_bind, Option.pure_def, Option.some.injEq, Prod.mk.injEq] at h
        exact h.2.2 ▸ framePreserved_trans (hev j st v1 j1 st1 he) (ih j1 st1 vs2 j2 st2 hg)

theorem intsApply_frame {α γ : Type} [Inhabited α] (moduleFn : Nat → List α → α)
    (feats : List α) (i : Nat)
    (rec : Nat → NetState α γ → Option (α × Nat × NetState α γ))
    (hrec : ∀ j st v j' st', rec j st = some (v, j', st') → FramePreserved st st') :
    ∀ fnStr used j (st : NetState α γ) v j' st',
      intsApply moduleFn feats i rec fnStr used j st = some (v, j', st') →
      FramePreserved st st' := by
  intro fnStr used j st v j' st' h
  have hst1 : FramePreserved st (if used then markUsedSt st i j else st) := by
    cases used
    · exact framePreserved_refl st
    · exact markUsedSt_frame st i j
  simp only [intsApply] at h
  cases hni : alookup (if used then markUsedSt st i j else st).functionModulesNumInputs fnStr with
  | none => rw [hni] at h; simp at h
  | some ni =>
    rw [hni] at h
    simp only at h
    by_cases hfilm : (if used then markUsedSt st i j else st).useFilm = true
    · rw [if_pos hfilm] at h; simp at h
    · rw [if_neg hfilm] at h
      cases hm : alookup (if used then markUsedSt st i j else st).functionModules fnStr with
      | none => rw [hm] at h; simp at h
      | some m =>
        rw [hm] at h
        simp only at h
        by_cases hsc : fnStr = "scene"
        · rw [if_pos hsc] at h
          simp only [Option.some.injEq, Prod.mk.injEq] at h
          exact h.2.2 ▸ hst1
        · rw [if_neg hsc] at h
          cases hg : gatherN rec (if fnStr = "scene" then 1 else ni) (j + 1)
              (if used then markUsedSt st i j else st) with
          | none => rw [hg] at h; simp at h
          | some r =>
            obtain ⟨ins, j2, st2⟩ := r
            rw [hg] at h
            simp only [Option.some.injEq, Prod.mk.injEq] at h
            exact h.2.2 ▸ framePreserved_trans hst1
              (gatherN_frame rec hrec _ _ _ _ _ _ hg)

theorem intsHelper_frame {α γ : Type} [Inhabited α] (moduleFn : Nat → List α → α)
    (feats : List α) (program : List (List Nat)) (i : Nat) :
    ∀ fuel j (st : NetState α γ) v j' st',
      intsHelper moduleFn feats program i fuel j st = some (v, j', st') →
      FramePreserved st st' := by
  intro fuel
  induction fuel with
  | zero => intro j st v j' st' h; simp [intsHelper] at h
  | succ fuel ih =>
    intro j st v j' st' h
    have hh : intsStep moduleFn feats program i
        (intsHelper moduleFn feats program i fuel) j st = some (v, j', st') := h
    unfold intsStep at hh
    by_cases hnull : (if j < (program.getD i []).length
        then st.programIdxToToken ((program.getD i []).getD j 0) else "scene") = "<NULL>"
    · rw [if_pos hnull] at hh
      exact intsApply_frame moduleFn feats i _ ih _ _ _ _ _ _ _ hh
    · rw [if_neg hnull] at hh
      by_cases hstart : (if j < (program.getD i []).length
          then st.programIdxToToken ((program.getD i []).getD j 0) else "scene") = "<START>"
      · rw [if_pos hstart] at hh
        exact ih _ _ _ _ _ hh
      · rw [if_neg hstart] at hh
        exact intsApply_frame moduleFn feats i _ ih _ _ _ _ _ _ _ hh

theorem intsLoop_frame {α γ : Type} [Inhabited α] (moduleFn : Nat → List α → α)
    (feats : List α) (program : List (List Nat)) :
    ∀ ixs (st : NetState α γ) outs st',
      intsLoop moduleFn feats program ixs st = some (outs, st') →
      FramePreserved st st' := by
  intro ixs
  induction ixs with
  | nil =>
    intro st outs st' h
    simp only [intsLoop, Option.some.injEq, Prod.mk.injEq] at h
    exact h.2 ▸ framePreserved_refl st
  | cons i is ih =>
    intro st outs st' h
    simp only [intsLoop, Option.bind_eq_bind] at h
    cases he : intsHelper moduleFn feats program i ((program.getD i []).length + 2) 0 st with
    | none => rw [he] at h; simp at h
    | some r1 =>
      obtain ⟨v1, j1, st1⟩ := r1
      rw [he] at h
      simp only [Option.some_bind] at h
      cases hl : intsLoop moduleFn feats program is st1 with
      | none => rw [hl] at h; simp at h
      | some r2 =>
        obtain ⟨vs2, st2⟩ := r2
        rw [hl] at h
        simp only [Option.some_bind, Option.pure_def, Option.some.injEq, Prod.mk.injEq] at h
        exact h.2 ▸ framePreserved_trans
          (intsHelper_frame moduleFn feats program i _ _ _ _ _ _ he)
          (ih st1 vs2 st2 hl)

/-- C8: evaluation never mutates the module registry, the arity table, the
    conditioning-id table or the conditioning parameter banks — explicit-form
    evaluation writes only the capture buffers (`all_module_outputs`,
    `all_module_grad_outputs`; the used-token mask is untouched), and
    token-sequence evaluation writes only the used-token mask.  Module
    parameters themselves live in the ambient `moduleFn`, which no evaluation
    path can modify, and the registered instance ids are shown unchanged. -/
theorem c8_no_mutation {α γ : Type} [Inhabited α] :
    (∀ (moduleFn : Nat → List α → α) (st : NetState α γ) feats program out st',
      forwardModulesJson moduleFn st feats program = some (out, st') →
      FramePreserved st st' ∧ st'.usedFns = st.usedFns) ∧
    (∀ (moduleFn : Nat → List α → α) (st : NetState α γ) feats program out st',
      forwardModulesInts moduleFn st feats program = some (out, st') →
      FramePreserved st st') := by
  constructor
  · intro moduleFn st feats program out st' h
    unfold forwardModulesJson at h
    cases hl : jsonLoop moduleFn st.functionModules feats program (List.range feats.length) with
    | none => rw [hl] at h; simp at h
    | some r =>
      rw [hl] at h
      simp only [Option.map_some', Option.some.injEq, Prod.mk.injEq] at h
      obtain ⟨-, h2⟩ := h
      subst h2
      exact ⟨⟨rfl, rfl, rfl, rfl, rfl, rfl, rfl, rfl, rfl⟩, rfl⟩
  · intro moduleFn st feats program out st' h
    unfold forwardModulesInts at h
    exact framePreserved_trans
      (⟨rfl, rfl, rfl, rfl, rfl, rfl, rfl, rfl, rfl⟩ :
        FramePreserved st { st with usedFns := zeroMask program })
      (intsLoop_frame moduleFn feats program _ _ _ _ h)

/-- Witness for `c8_no_mutation`: a concrete token-sequence run (one `'scene'`
    token) and a concrete explicit-form run over the generate_flatqa state,
    both preserving the registry and conditioning components. -/
theorem c8_no_mutation_witness :
    (∃ out stF, forwardModulesInts (fun _ args => 1 + args.sum) flatqaState [0] [[3]]
        = some (out, stF) ∧ FramePreserved flatqaState stF) ∧
    (∃ out stF, forwardModulesJson (fun _ args => 1 + args.sum) flatqaState [0]
        [[⟨"scene", []⟩]] = some (out, stF) ∧ stF.usedFns = flatqaState.usedFns) := by
  constructor
  · rcases hr : forwardModulesInts (fun _ args => 1 + args.sum) flatqaState [0] [[3]] with - | ⟨out, stF⟩
    · have hs := congrArg Option.isSome hr
      rw [show (forwardModulesInts (fun _ args => 1 + args.sum) flatqaState [0] [[3]]).isSome
          = true from by decide] at hs
      simp at hs
    · exact ⟨out, stF, rfl,
        (c8_no_mutation.2 (fun _ args => 1 + args.sum) flatqaState [0] [[3]] out stF hr)⟩
  · rcases hr : forwardModulesJson (fun _ args => 1 + args.sum) flatqaState [0]
        [[⟨"scene", []⟩]] with - | ⟨out, stF⟩
    · have hs := congrArg Option.isSome hr
      rw [show (forwardModulesJson (fun _ args => 1 + args.sum) flatqaState [0]
          [[⟨"scene", []⟩]]).isSome = true from by decide] at hs
      simp at hs
    · exact ⟨out, stF, rfl,
        (c8_no_mutation.1 (fun _ args => 1 + args.sum) flatqaState [0]
          [[⟨"scene", []⟩]] out stF hr).2⟩

/-! ### FiLM construction crash (C10) and the conditioning-id typo (C6) -/

/-- C10: with `use_film` set, `ModuleNet` construction raises before
    completing — `declare_film_coefficients` is called (`module_net.py:63`)
    before `self.fn_str_2_filmId` is created (line 86) and additionally reads
    `self.module_dim` (never assigned) and the unimported name
    `xavier_uniform`, so no FiLM-conditioned model is ever constructible; in
    particular every successfully constructed state has `useFilm = false`,
    which is exactly the condition keeping evaluation out of the FiLM branch
    (the branch that would read the unbound globals `gammas`/`betas`). -/
theorem c10_film_unconstructible (α γ : Type) :
    (∀ (sp : Nat × Nat) (vocab : List (String × Nat)) (idxToToken : Nat → String),
      initModuleNet α γ true sp vocab idxToToken = .error .attributeError) ∧
    (∀ (useFilm : Bool) (sp : Nat × Nat) (vocab : List (String × Nat))
       (idxToToken : Nat → String) (net : NetState α γ),
      initModuleNet α γ useFilm sp vocab idxToToken = .ok net → net.useFilm = false) := by
  constructor
  · intro sp vocab idxToToken
    rfl
  · intro useFilm sp vocab idxToToken net h
    cases useFilm
    · unfold initModuleNet declareFilmCoefficients at h
      simp only [Bool.false_eq_true, if_false] at h
      cases hb : buildFunctionModules false sp vocab initialBuildState with
      | error e => rw [hb] at h; simp at h
      | ok bst =>
        rw [hb] at h
        simp only [Except.ok.injEq] at h
        rw [← h]
    · have he : initModuleNet α γ true sp vocab idxToToken
          = .error .attributeError := rfl
      rw [he] at h
      exact absurd h (by simp)

/-- Witness for `c10_film_unconstructible`: a FiLM construction over the
    generate_flatqa vocabulary fails, a FiLM-free one succeeds with the flag
    stored as `false`. -/
theorem c10_film_unconstructible_witness :
    (initModuleNet Nat Unit true (1, 1) flatqaVocab (fun _ => "<NULL>")
        = .error .attributeError) ∧
    (∃ net, initModuleNet Nat Unit false (0, 0) flatqaVocab (fun _ => "<NULL>")
        = .ok net ∧ net.useFilm = false) := by
  refine ⟨(c10_film_unconstructible Nat Unit).1 (1, 1) flatqaVocab _, ?_⟩
  rcases hr : initModuleNet Nat Unit false (0, 0) flatqaVocab (fun _ => "<NULL>")
    with e | net
  · exfalso
    have hs : (initModuleNet Nat Unit false (0, 0) flatqaVocab
        (fun _ => "<NULL>")).toOption.isSome = true := by decide
    rw [hr] at hs
    simp [Except.toOption] at hs
  · exact ⟨net, rfl,
      (c10_film_unconstructible Nat Unit).2 false (0, 0) flatqaVocab _ net hr⟩

/-- C6 evidence: at the generate_flatqa vocabulary (where `scene` has
    declared arity 0) with FiLM and conditioning-parameter sharing, the
    vocabulary loop assigns THREE conditioning ids, `{0, -1, 1}` under keys
    `"1", "0", "2"` — the arity-0 `scene` entry gets the junk id `-1` under
    key `"0"` because `module_net.py:94` compares `fn_str` against the
    misspelled literal `'scence'`; the spec's intended behaviour (scene in
    the unary class, at most 2 ids) would require the literal `'scene'`. -/
theorem c6_scence_typo_assignment :
    ((buildFunctionModules true (1, 1) flatqaVocab initialBuildState).toOption.map
        (fun st => st.fnStr2FilmId) = some [("1", 0), ("0", -1), ("2", 1)]) ∧
    (alookup [(("1" : String), (0 : Int)), ("0", -1), ("2", 1)] "0" = some (-1)) ∧
    ([(("1" : String), (0 : Int)), ("0", -1), ("2", 1)].length = 3) ∧
    ¬ ([(("1" : String), (0 : Int)), ("0", -1), ("2", 1)].length ≤ 2) :=
  ⟨by decide, by decide, by decide, by decide⟩

/-- Counterexample to C9: a vocabulary entry with declared arity 3 does NOT
    make construction fail with a `ConfigurationError` — no arity validation
    exists; construction succeeds and silently registers the entry with the
    module object left in the loop variable by the previous entry (here:
    `"weird"` is bound to `"scene"`'s module instance 0). -/
theorem c9_no_arity_validation_counterexample :
    ((buildFunctionModules false (0, 0) [("scene", 0), ("weird", 3)]
        initialBuildState).toOption.map (fun st => st.functionModules)
      = some [("scene", 0), ("weird", 0)]) ∧
    ((buildFunctionModules false (0, 0) [("scene", 0), ("weird", 3)]
        initialBuildState).toOption.isSome = true) ∧
    (alookup [(("scene" : String), (0 : Nat)), ("weird", 0)] "weird"
      = alookup [(("scene" : String), (0 : Nat)), ("weird", 0)] "scene") :=
  ⟨by decide, by decide, by decide⟩

/-! ### Top-level dispatch (C5) -/

/-- C5: `forward` selects the evaluation mode from the program
    representation — a list or tuple of per-example node lists is evaluated
    in explicit form, a rank-2 tensor in token-sequence form, a rank-3
    tensor is routed to the probabilistic path, and any other representation
    (another tensor rank, or any other sized value) fails with
    `ValueError('Unrecognized program format')`; an unsized value fails at
    the preceding `len(program)` call, and a length mismatch at the
    `assert N == len(program)`. -/
theorem c5_forward_dispatch {α γ : Type} [Inhabited α] (moduleFn : Nat → List α → α)
    (st : NetState α γ) (feats : List α) :
    (∀ p : List (List ProgNode), p.length = feats.length →
      forward moduleFn st feats (.pylist p)
        = match forwardModulesJson moduleFn st feats p with
          | none => .error .evalError
          | some (out, st') => .ok (.done out st')) ∧
    (∀ p : List (List ProgNode), p.length = feats.length →
      forward moduleFn st feats (.pytuple p)
        = match forwardModulesJson moduleFn st feats p with
          | none => .error .evalError
          | some (out, st') => .ok (.done out st')) ∧
    (∀ rows : List (List Nat), rows.length = feats.length →
      forward moduleFn st feats (.tensor 2 rows)
        = match forwardModulesInts moduleFn st feats rows with
          | none => .error .evalError
          | some (out, st') => .ok (.done out st')) ∧
    (∀ rows : List (List Nat), rows.length = feats.length →
      forward moduleFn st feats (.tensor 3 rows) = .ok .probsRouted) ∧
    (∀ (d : Nat) (rows : List (List Nat)), rows.length = feats.length →
      d ≠ 2 → d ≠ 3 →
      forward moduleFn st feats (.tensor d rows) = .error .unsupportedFormat) ∧
    (forward moduleFn st feats (.other (some feats.length))
      = .error .unsupportedFormat) ∧
    (forward moduleFn st feats (.other none) = .error .typeError) ∧
    (∀ (p : ProgramRep α) (L : Nat), programLen p = some L → L ≠ feats.length →
      forward moduleFn st feats p = .error .assertionError) := by
  refine ⟨?_, ?_, ?_, ?_, ?_, ?_, ?_, ?_⟩
  · intro p hp
    simp only [forward, programLen]
    rw [if_pos hp]
  · intro p hp
    simp only [forward, programLen]
    rw [if_pos hp]
  · intro rows hr
    simp only [forward, programLen]
    rw [if_pos hr]
    simp
  · intro rows hr
    simp only [forward, programLen]
    rw [if_pos hr]
    simp
  · intro d rows hr h2 h3
    simp only [forward, programLen]
    rw [if_pos hr, if_neg h2, if_neg h3]
  · simp only [forward, programLen]
    simp
  · rfl
  · intro p L hL hne
    cases p with
    | pylist q =>
      simp only [programLen, Option.some.injEq] at hL
      simp only [forward, programLen]
      rw [if_neg (hL ▸ hne)]
    | pytuple q =>
      simp only [programLen, Option.some.injEq] at hL
      simp only [forward, programLen]
      rw [if_neg (hL ▸ hne)]
    | tensor d rows =>
      simp only [programLen, Option.some.injEq] at hL
      simp only [forward, programLen]
      rw [if_neg (hL ▸ hne)]
    | other l =>
      simp only [programLen] at hL
      simp only [forward, programLen, hL]
      rw [if_neg hne]

/-- Witness for `c5_forward_dispatch`: concrete dispatch outcomes over the
    generate_flatqa state. -/
theorem c5_forward_dispatch_witness :
    (forward (fun _ args => 1 + args.sum) flatqaState [0] (.tensor 3 [[0]])
      = .ok .probsRouted) ∧
    (forward (fun _ args => 1 + args.sum) flatqaState [0] (.tensor 1 [[0]])
      = .error .unsupportedFormat) ∧
    (forward (fun _ args => 1 + args.sum) flatqaState [0] (.other (some 1))
      = .error .unsupportedFormat) := by
  refine ⟨?_, ?_, ?_⟩
  · exact (c5_forward_dispatch (fun _ args => 1 + args.sum) flatqaState
      [0]).2.2.2.1 [[0]] rfl
  · exact (c5_forward_dispatch (fun _ args => 1 + args.sum) flatqaState
      [0]).2.2.2.2.1 1 [[0]] rfl (by decide) (by decide)
  · exact (c5_forward_dispatch (fun _ args => 1 + args.sum) flatqaState
      [0]).2.2.2.2.2.1

/-! ### Answer-vocabulary expansion (C7) -/

theorem getD_range_map {β : Type} (n r : Nat) (hr : r < n) (f : Nat → β) (d : β) :
    ((List.range n).map f).getD r d = f r := by
  rw [List.getD, List.get?_map, List.get?_range hr]
  rfl

/-- C7: `expand_answer_vocab` grows the final linear layer to
    `1 + max(answer_to_idx.values())` rows, keeps every previously existing
    weight row and bias entry unchanged, fills every new row with
    `std`-scaled random draws and every new bias with the strongly negative
    constant `init_b = -50`, so classifier logits of previously-seen answer
    ids are unchanged on any input. -/
theorem c7_expand_answer_vocab (fl : LinearLayer) (answerIdxs : List Nat)
    (rnd : Nat → Nat → ℚ) (mx : Nat)
    (hmx : listMax answerIdxs = some mx)
    (hgrow : fl.weight.length ≤ 1 + mx) :
    ∃ fl', expandAnswerVocab fl answerIdxs rnd (1/100) (-50) = some fl' ∧
      fl'.weight.length = 1 + mx ∧
      fl.weight.length ≤ fl'.weight.length ∧
      fl'.bias.length = 1 + mx ∧
      (∀ r, r < fl.weight.length →
        fl'.weight.getD r [] = fl.weight.getD r [] ∧
        fl'.bias.getD r 0 = fl.bias.getD r 0) ∧
      (∀ r, fl.weight.length ≤ r → r < 1 + mx →
        fl'.weight.getD r []
          = (List.range ((fl.weight.getD 0 []).length)).map
              (fun c => (1/100 : ℚ) * rnd r c) ∧
        fl'.bias.getD r 0 = -50) ∧
      ((-50 : ℚ) < 0) ∧
      (∀ (x : List ℚ) r, r < fl.weight.length → logit fl' x r = logit fl x r) := by
  refine ⟨LinearLayer.mk
      ((List.range (1 + mx)).map (fun r =>
        if r < fl.weight.length then fl.weight.getD r []
        else (List.range ((fl.weight.getD 0 []).length)).map
          (fun c => (1/100 : ℚ) * rnd r c)))
      ((List.range (1 + mx)).map (fun r =>
        if r < fl.weight.length then fl.bias.getD r 0 else (-50 : ℚ))),
    ?_, ?_, ?_, ?_, ?_, ?_, by norm_num, ?_⟩
  · unfold expandAnswerVocab
    rw [hmx]
    simp only [if_pos hgrow]
  · simp
  · simpa using hgrow
  · simp
  · intro r hr
    constructor
    · rw [getD_range_map (1 + mx) r (by omega) _ [], if_pos hr]
    · rw [getD_range_map (1 + mx) r (by omega) _ 0, if_pos hr]
  · intro r hr1 hr2
    constructor
    · rw [getD_range_map (1 + mx) r (by omega) _ [], if_neg (by omega)]
    · rw [getD_range_map (1 + mx) r (by omega) _ 0, if_neg (by omega)]
  · intro x r hr
    unfold logit
    rw [getD_range_map (1 + mx) r (by omega) _ [], if_pos hr,
      getD_range_map (1 + mx) r (by omega) _ 0, if_pos hr]

/-- Witness for `c7_expand_answer_vocab`: a one-answer classifier expanded to
    two answers. -/
theorem c7_expand_answer_vocab_witness :
    (listMax [1] = some 1) ∧ (1 ≤ 1 + 1) ∧
    (∃ fl', expandAnswerVocab ⟨[[1]], [2]⟩ [1] (fun _ _ => 3) (1/100) (-50)
        = some fl' ∧ fl'.weight.length = 2 ∧ fl'.bias.getD 0 0 = 2) := by
  refine ⟨by decide, by decide, ?_⟩
  obtain ⟨fl', hok, hlen, -, -, hold, -, -, -⟩ :=
    c7_expand_answer_vocab ⟨[[1]], [2]⟩ [1] (fun _ _ => 3) 1 (by decide) (by decide)
  exact ⟨fl', hok, hlen, ((hold 0 (by decide)).2 : fl'.bias.getD 0 0 = 2)⟩

/-! ### Dictionary lemmas for the construction invariants -/

theorem find?_overwrite {β : Type} (k : String) (v : β) :
    ∀ m : List (String × β), (m.find? (fun p => p.1 == k)).isSome = true →
    (m.map (fun p => if p.1 == k then (k, v) else p)).find? (fun p => p.1 == k)
      = some (k, v) := by
  intro m
  induction m with
  | nil => intro h; simp [List.find?] at h
  | cons a as ih =>
    intro h
    cases ha : (a.1 == k) with
    | true =>
      simp only [List.map_cons, List.find?_cons, ha]
      simp
    | false =>
      simp only [List.map_cons, List.find?_cons, ha]
      simp only [Bool.false_eq_true, if_false]
      rw [ha]
      rw [List.find?_cons, ha] at h
      exact ih h

theorem find?_snoc_none {β : Type} (k : String) (v : β) :
    ∀ m : List (String × β), m.find? (fun p => p.1 == k) = none →
    (m ++ [(k, v)]).find? (fun p => p.1 == k) = some (k, v) := by
  intro m
  induction m with
  | nil => intro _; simp [List.find?]
  | cons a as ih =>
    intro h
    have ha : (a.1 == k) = false := by
      cases hb : (a.1 == k) with
      | false => rfl
      | true => rw [List.find?_cons, hb] at h; simp at h
    rw [List.cons_append, List.find?_cons, ha]
    simp only [Bool.false_eq_true]
    apply ih
    rw [List.find?_cons, ha] at h
    exact h

theorem find?_overwrite_ne {β : Type} (k : String) (v : β) (k' : String)
    (hne : k' ≠ k) :
    ∀ m : List (String × β),
    (m.map (fun p => if p.1 == k then (k, v) else p)).find? (fun p => p.1 == k')
      = m.find? (fun p => p.1 == k') := by
  intro m
  induction m with
  | nil => rfl
  | cons a as ih =>
    cases ha : (a.1 == k) with
    | true =>
      have h1 : ((k, v).1 == k') = false := beq_eq_false_iff_ne.mpr (Ne.symm hne)
      have h2 : (a.1 == k') = false := by
        have hak : a.1 = k := by simpa using ha
        rw [hak]
        exact beq_eq_false_iff_ne.mpr (Ne.symm hne)
      simp only [List.map_cons, List.find?_cons, ha, if_true]
      rw [h1, h2, ih]
    | false =>
      simp only [List.map_cons, List.find?_cons, ha]
      simp only [Bool.false_eq_true, if_false]
      cases hk' : (a.1 == k') with
      | true => simp [hk']
      | false => simp only [hk']; exact ih

theorem find?_snoc_ne {β : Type} (k : String) (v : β) (k' : String)
    (hne : k' ≠ k) :
    ∀ m : List (String × β),
    (m ++ [(k, v)]).find? (fun p => p.1 == k') = m.find? (fun p => p.1 == k') := by
  intro m
  induction m with
  | nil =>
    simp only [List.nil_append]
    rw [List.find?_cons, show ((k, v).1 == k') = false from beq_eq_false_iff_ne.mpr (Ne.symm hne)]
  | cons a as ih =>
    rw [List.cons_append, List.find?_cons, List.find?_cons]
    cases ha : (a.1 == k') with
    | true => simp [ha]
    | false => simp only [ha]; exact ih

theorem alookup_dinsert_self {β : Type} (m : List (String × β)) (k : String) (v : β) :
    alookup (dinsert m k v) k = some v := by
  unfold alookup dinsert
  by_cases h : (m.find? (fun p => p.1 == k)).isSome = true
  · rw [if_pos h, find?_overwrite k v m h]
    rfl
  · rw [if_neg h, find?_snoc_none k v m (Option.not_isSome_iff_eq_none.mp (by simpa using h))]
    rfl

theorem alookup_dinsert_ne {β : Type} (m : List (String × β)) (k : String) (v : β)
    (k' : String) (hne : k' ≠ k) :
    alookup (dinsert m k v) k' = alookup m k' := by
  unfold alookup dinsert
  by_cases h : (m.find? (fun p => p.1 == k)).isSome = true
  · rw [if_pos h, find?_overwrite_ne k v k' hne m]
  · rw [if_neg h, find?_snoc_ne k v k' hne m]

theorem alookup_dinsert_isSome_mono {β : Type} (m : List (String × β))
    (k : String) (v : β) (k' : String)
    (h : (alookup m k').isSome = true) :
    (alookup (dinsert m k v) k').isSome = true := by
  by_cases he : k' = k
  · subst he
    rw [alookup_dinsert_self]
    rfl
  · rw [alookup_dinsert_ne m k v k' he]
    exact h

/-! ### Shape of the vocabulary-loop pieces -/

theorem buildArity_fm (st : BuildState) (f : String) (n : Nat) :
    (buildArity st f n).functionModules = st.functionModules := rfl

theorem buildArity_nextId (st : BuildState) (f : String) (n : Nat) :
    (buildArity st f n).nextId = st.nextId := rfl

theorem buildArity_lastMod (st : BuildState) (f : String) (n : Nat) :
    (buildArity st f n).lastMod = st.lastMod := rfl

theorem buildFilmId_fm (u : Bool) (sp : Nat × Nat) (st : BuildState)
    (f : String) (n : Nat) :
    (buildFilmId u sp st f n).functionModules = st.functionModules := by
  unfold buildFilmId
  split
  · split
    · rfl
    · rfl
  · rfl

theorem buildFilmId_nextId (u : Bool) (sp : Nat × Nat) (st : BuildState)
    (f : String) (n : Nat) :
    (buildFilmId u sp st f n).nextId = st.nextId := by
  unfold buildFilmId
  split
  · split
    · rfl
    · rfl
  · rfl

theorem buildFilmId_lastMod (u : Bool) (sp : Nat × Nat) (st : BuildState)
    (f : String) (n : Nat) :
    (buildFilmId u sp st f n).lastMod = st.lastMod := by
  unfold buildFilmId
  split
  · split
    · rfl
    · rfl
  · rfl

theorem buildModule_fm (u : Bool) (sp : Nat × Nat) (st : BuildState)
    (f : String) (n : Nat) :
    (buildModule u sp st f n).functionModules = st.functionModules := by
  unfold buildModule
  repeat' split
  all_goals rfl

theorem buildRegister_fm (u : Bool) (st : BuildState) (f : String)
    (st' : BuildState) (h : buildRegister u st f = .ok st') :
    st'.functionModules = st.functionModules ∨
    ∃ s m, st'.functionModules = dinsert st.functionModules s m := by
  unfold buildRegister at h
  split at h
  · split at h
    · cases h
    · cases h
      left
      rfl
    · split at h
      · cases h
        right
        exact ⟨_, _, rfl⟩
      · cases h
  · split at h
    · cases h
    · cases h
      right
      exact ⟨_, _, rfl⟩

/-- A successful loop iteration can only extend the module registry. -/
theorem buildStep_fm_mono (u : Bool) (sp : Nat × Nat) (st : BuildState)
    (f : String) (n : Nat) (st' : BuildState)
    (h : buildStep u sp st f n = .ok st') (k : String)
    (hk : (alookup st.functionModules k).isSome = true) :
    (alookup st'.functionModules k).isSome = true := by
  unfold buildStep at h
  have hfm : (buildModule u sp (buildFilmId u sp (buildArity st f n) f n) f n).functionModules
      = st.functionModules := by
    rw [buildModule_fm, buildFilmId_fm, buildArity_fm]
  rcases buildRegister_fm u _ f st' h with he | ⟨s, m, he⟩
  · rw [he, hfm]
    exact hk
  · rw [he, hfm]
    exact alookup_dinsert_isSome_mono _ s m k hk

/-- Registry extension holds across the whole loop. -/
theorem build_fm_mono (u : Bool) (sp : Nat × Nat) :
    ∀ (vocab : List (String × Nat)) (st st' : BuildState),
    buildFunctionModules u sp vocab st = .ok st' →
    ∀ k, (alookup st.functionModules k).isSome = true →
      (alookup st'.functionModules k).isSome = true := by
  intro vocab
  induction vocab with
  | nil =>
    intro st st' h k hk
    unfold buildFunctionModules at h
    cases h
    exact hk
  | cons e rest ih =>
    intro st st' h k hk
    obtain ⟨f, n⟩ := e
    unfold buildFunctionModules at h
    cases hs : buildStep u sp st f n with
    | error e => rw [hs] at h; cases h
    | ok st1 =>
      rw [hs] at h
      exact ih st1 st' h k (buildStep_fm_mono u sp st f n st1 hs k hk)

/-- Without FiLM, a vocabulary entry routed to an arity class allocates a
    fresh module instance and registers it under the operator name. -/
theorem buildStep_nonfilm_classed (sp : Nat × Nat) (st : BuildState)
    (f : String) (n : Nat) (hcl : (arityClass f n).isSome = true) :
    buildStep false sp st f n = .ok
      { st with
        functionModulesNumInputs := dinsert st.functionModulesNumInputs f n,
        functionModules := dinsert st.functionModules f st.nextId,
        nextId := st.nextId + 1,
        lastMod := some st.nextId } := by
  unfold arityClass at hcl
  unfold buildStep buildRegister buildModule buildFilmId buildArity
  by_cases h1 : f = "scene" ∨ n = 1
  · rw [if_pos h1]
    rfl
  · rw [if_neg h1] at hcl
    by_cases h2 : n = 2
    · rw [if_neg h1, if_pos h2]
      rfl
    · rw [if_neg h2] at hcl
      simp at hcl

/-- Without FiLM, an entry whose arity falls outside both branches and whose
    iteration starts with an unassigned `mod` local raises `NameError`. -/
theorem buildStep_nonfilm_bad_none (sp : Nat × Nat) (st : BuildState)
    (f : String) (n : Nat) (hcl : arityClass f n = none)
    (hm : st.lastMod = none) :
    buildStep false sp st f n = .error .nameError := by
  unfold arityClass at hcl
  by_cases h1 : f = "scene" ∨ n = 1
  · rw [if_pos h1] at hcl
    cases hcl
  · rw [if_neg h1] at hcl
    by_cases h2 : n = 2
    · rw [if_pos h2] at hcl
      cases hcl
    · unfold buildStep buildRegister buildModule buildFilmId buildArity
      rw [if_neg h1, if_neg h2]
      simp only [Bool.false_eq_true, if_false]
      rw [show ({ st with functionModulesNumInputs := dinsert st.functionModulesNumInputs f n } : BuildState).lastMod = st.lastMod from rfl, hm]

/-- Without FiLM, an entry with out-of-range arity silently re-registers the
    previous iteration's module instance under the new operator name. -/
theorem buildStep_nonfilm_bad_some (sp : Nat × Nat) (st : BuildState)
    (f : String) (n : Nat) (m : Nat) (hcl : arityClass f n = none)
    (hm : st.lastMod = some m) :
    buildStep false sp st f n = .ok
      { st with
        functionModulesNumInputs := dinsert st.functionModulesNumInputs f n,
        functionModules := dinsert st.functionModules f m } := by
  unfold arityClass at hcl
  by_cases h1 : f = "scene" ∨ n = 1
  · rw [if_pos h1] at hcl
    cases hcl
  · rw [if_neg h1] at hcl
    by_cases h2 : n = 2
    · rw [if_pos h2] at hcl
      cases hcl
    · unfold buildStep buildRegister buildModule buildFilmId buildArity
      rw [if_neg h1, if_neg h2]
      simp only [Bool.false_eq_true, if_false]
      rw [show ({ st with functionModulesNumInputs := dinsert st.functionModulesNumInputs f n } : BuildState).lastMod = st.lastMod from rfl, hm]

/-- Under FiLM with module sharing (`sharing_patterns[0] == 1`), a classed
    vocabulary entry leaves the registry holding its arity-class key. -/
theorem buildStep_film_shared (sp : Nat × Nat) (hsp : sp.1 = 1)
    (st : BuildState) (f : String) (n : Nat) (c : Nat)
    (hcl : arityClass f n = some c) :
    ∃ st', buildStep true sp st f n = .ok st' ∧
      (alookup st'.functionModules (toString c)).isSome = true := by
  set stF := buildFilmId true sp (buildArity st f n) f n with hstF
  have hstep : buildStep true sp st f n = buildRegister true (buildModule true sp stF f n) f := rfl
  unfold arityClass at hcl
  by_cases h1 : f = "scene" ∨ n = 1
  · rw [if_pos h1] at hcl
    have hc : c = 1 := by cases hcl; rfl
    subst hc
    cases hl : alookup stF.functionModules "1" with
    | some m =>
      have hmod : buildModule true sp stF f n = { stF with lastMod := some m, lastStored := some "1", lastNew := some false } := by
        unfold buildModule
        rw [if_pos h1, if_pos hsp, hl]
        rfl
      refine ⟨{ stF with lastMod := some m, lastStored := some "1", lastNew := some false }, ?_, ?_⟩
      · rw [hstep, hmod]
        rfl
      · show (alookup stF.functionModules (toString (1 : Nat))).isSome = true
        rw [show toString (1 : Nat) = "1" from rfl, hl]
        rfl
    | none =>
      have hmod : buildModule true sp stF f n = { stF with lastMod := some stF.nextId, nextId := stF.nextId + 1, lastStored := some "1", lastNew := some true } := by
        unfold buildModule
        rw [if_pos h1, if_pos hsp, hl]
        rfl
      refine ⟨{ stF with functionModules := dinsert stF.functionModules "1" stF.nextId, lastMod := some stF.nextId, nextId := stF.nextId + 1, lastStored := some "1", lastNew := some true }, ?_, ?_⟩
      · rw [hstep, hmod]
        rfl
      · show (alookup (dinsert stF.functionModules "1" stF.nextId) (toString (1 : Nat))).isSome = true
        rw [show toString (1 : Nat) = "1" from rfl, alookup_dinsert_self]
        rfl
  · rw [if_neg h1] at hcl
    by_cases h2 : n = 2
    · rw [if_pos h2] at hcl
      have hc : c = 2 := by cases hcl; rfl
      subst hc
      cases hl : alookup stF.functionModules "2" with
      | some m =>
        have hmod : buildModule true sp stF f n = { stF with lastMod := some m, lastStored := some "2", lastNew := some false } := by
          unfold buildModule
          rw [if_neg h1, if_pos h2, if_pos hsp, hl]
          rfl
        refine ⟨{ stF with lastMod := some m, lastStored := some "2", lastNew := some false }, ?_, ?_⟩
        · rw [hstep, hmod]
          rfl
        · show (alookup stF.functionModules (toString (2 : Nat))).isSome = true
          rw [show toString (2 : Nat) = "2" from rfl, hl]
          rfl
      | none =>
        have hmod : buildModule true sp stF f n = { stF with lastMod := some stF.nextId, nextId := stF.nextId + 1, lastStored := some "2", lastNew := some true } := by
          unfold buildModule
          rw [if_neg h1, if_pos h2, if_pos hsp, hl]
          rfl
        refine ⟨{ stF with functionModules := dinsert stF.functionModules "2" stF.nextId, lastMod := some stF.nextId, nextId := stF.nextId + 1, lastStored := some "2", lastNew := some true }, ?_, ?_⟩
        · rw [hstep, hmod]
          rfl
        · show (alookup (dinsert stF.functionModules "2" stF.nextId) (toString (2 : Nat))).isSome = true
          rw [show toString (2 : Nat) = "2" from rfl, alookup_dinsert_self]
          rfl
    · rw [if_neg h2] at hcl
      cases hcl

/-- After a successful FiLM build with module sharing, every arity class
    inhabited by some vocabulary entry has its key in the registry. -/
theorem build_film_keys (sp : Nat × Nat) (hsp : sp.1 = 1) :
    ∀ (vocab : List (String × Nat)) (st st' : BuildState),
    buildFunctionModules true sp vocab st = .ok st' →
    ∀ e ∈ vocab, ∀ c, arityClass e.1 e.2 = some c →
      (alookup st'.functionModules (toString c)).isSome = true := by
  intro vocab
  induction vocab with
  | nil => intro st st' _ e he; cases he
  | cons hd rest ih =>
    intro st st' h e he c hc
    obtain ⟨f, n⟩ := hd
    unfold buildFunctionModules at h
    cases hs : buildStep true sp st f n with
    | error e0 => rw [hs] at h; cases h
    | ok st1 =>
      rw [hs] at h
      rcases List.mem_cons.mp he with he1 | he2
      · subst he1
        obtain ⟨st1', hs', hkey⟩ := buildStep_film_shared sp hsp st f n c hc
        rw [hs] at hs'
        cases hs'
        exact build_fm_mono true sp rest st1 st' h (toString c) hkey
      · exact ih st1 st' h e he2 c hc

/-- During token-sequence evaluation under FiLM with module sharing, a classed
    operator resolves through its arity-class key. -/
theorem resolveModule_film_class (fm : List (String × Nat)) (f : String)
    (n c : Nat) (hc : arityClass f n = some c) :
    resolveModule true 1 fm f n = alookup fm (toString c) := by
  unfold arityClass at hc
  by_cases hs : f = "scene"
  · rw [if_pos (Or.inl hs)] at hc
    have : c = 1 := by cases hc; rfl
    subst this
    unfold resolveModule
    rw [if_pos hs]
    rfl
  · by_cases hn1 : n = 1
    · rw [if_pos (Or.inr hn1)] at hc
      have : c = 1 := by cases hc; rfl
      subst this
      subst hn1
      unfold resolveModule
      rw [if_neg hs]
      rfl
    · rw [if_neg (by simp [hs, hn1])] at hc
      by_cases hn2 : n = 2
      · rw [if_pos hn2] at hc
        have : c = 2 := by cases hc; rfl
        subst this
        subst hn2
        unfold resolveModule
        rw [if_neg hs]
        rfl
      · rw [if_neg hn2] at hc
        cases hc

/-- Without FiLM, a vocabulary whose declared arities are all classed builds
    successfully and registers every operator name. -/
theorem build_classed_ok (sp : Nat × Nat) :
    ∀ (vocab : List (String × Nat)) (st : BuildState),
    (∀ e ∈ vocab, (arityClass e.1 e.2).isSome = true) →
    ∃ st', buildFunctionModules false sp vocab st = .ok st' ∧
      ∀ e ∈ vocab, (alookup st'.functionModules e.1).isSome = true := by
  intro vocab
  induction vocab with
  | nil => intro st _; exact ⟨st, rfl, fun e he => nomatch he⟩
  | cons hd rest ih =>
    intro st hall
    obtain ⟨f, n⟩ := hd
    have hstep := buildStep_nonfilm_classed sp st f n (hall (f, n) (List.mem_cons_self _ _))
    obtain ⟨st', hb, hkeys⟩ := ih
      { st with functionModulesNumInputs := dinsert st.functionModulesNumInputs f n, functionModules := dinsert st.functionModules f st.nextId, nextId := st.nextId + 1, lastMod := some st.nextId }
      (fun e he => hall e (List.mem_cons_of_mem _ he))
    refine ⟨st', ?_, ?_⟩
    · unfold buildFunctionModules
      rw [hstep]
      exact hb
    · intro e he
      rcases List.mem_cons.mp he with he1 | he2
      · subst he1
        refine build_fm_mono false sp rest _ st' hb f ?_
        show (alookup (dinsert st.functionModules f st.nextId) f).isSome = true
        rw [alookup_dinsert_self]
        rfl
      · exact hkeys e he2

/-- Without FiLM, a classed vocabulary with pairwise-distinct names builds a
    registry mapping each name to its own freshly allocated module instance:
    fresh ids lie in `[st.nextId, st'.nextId)`, other keys are untouched, and
    distinct names receive distinct instances. -/
theorem build_nonfilm (sp : Nat × Nat) :
    ∀ (vocab : List (String × Nat)) (st : BuildState),
    (∀ e ∈ vocab, (arityClass e.1 e.2).isSome = true) →
    (vocab.map Prod.fst).Nodup →
    ∃ st', buildFunctionModules false sp vocab st = .ok st' ∧
      st.nextId ≤ st'.nextId ∧
      (∀ k, k ∉ vocab.map Prod.fst →
        alookup st'.functionModules k = alookup st.functionModules k) ∧
      (∀ e ∈ vocab, ∃ v, alookup st'.functionModules e.1 = some v ∧
        st.nextId ≤ v ∧ v < st'.nextId) ∧
      (∀ e1 ∈ vocab, ∀ e2 ∈ vocab, e1.1 ≠ e2.1 →
        alookup st'.functionModules e1.1 ≠ alookup st'.functionModules e2.1) := by
  intro vocab
  induction vocab with
  | nil =>
    intro st _ _
    refine ⟨st, rfl, Nat.le_refl _, fun k _ => rfl, ?_, ?_⟩
    · intro e he; cases he
    · intro e1 he1; cases he1
  | cons hd rest ih =>
    intro st hall hnd
    obtain ⟨f, n⟩ := hd
    have hstep := buildStep_nonfilm_classed sp st f n (hall (f, n) (List.mem_cons_self _ _))
    have hndr : (rest.map Prod.fst).Nodup := (List.nodup_cons.mp hnd).2
    have hfnotin : f ∉ rest.map Prod.fst := (List.nodup_cons.mp hnd).1
    obtain ⟨st', hb, hle, hout, hpres, hdist⟩ := ih
      { st with functionModulesNumInputs := dinsert st.functionModulesNumInputs f n, functionModules := dinsert st.functionModules f st.nextId, nextId := st.nextId + 1, lastMod := some st.nextId }
      (fun e he => hall e (List.mem_cons_of_mem _ he)) hndr
    have hheadlook : alookup st'.functionModules f = some st.nextId := by
      have := hout f hfnotin
      rw [this]
      show alookup (dinsert st.functionModules f st.nextId) f = some st.nextId
      rw [alookup_dinsert_self]
    refine ⟨st', ?_, ?_, ?_, ?_, ?_⟩
    · unfold buildFunctionModules
      rw [hstep]
      exact hb
    · exact Nat.le_trans (Nat.le_succ _) hle
    · intro k hk
      have hkf : k ≠ f := fun he => hk (by rw [he]; exact List.mem_cons_self _ _)
      have hkr : k ∉ rest.map Prod.fst := fun hm => hk (List.mem_cons_of_mem _ hm)
      rw [hout k hkr]
      show alookup (dinsert st.functionModules f st.nextId) k = alookup st.functionModules k
      exact alookup_dinsert_ne _ f _ k hkf
    · intro e he
      rcases List.mem_cons.mp he with he1 | he2
      · subst he1
        exact ⟨st.nextId, hheadlook, Nat.le_refl _, Nat.lt_of_lt_of_le (Nat.lt_succ_self _) hle⟩
      · obtain ⟨v, hv, hlo, hhi⟩ := hpres e he2
        exact ⟨v, hv, Nat.le_trans (Nat.le_succ _) hlo, hhi⟩
    · intro e1 he1 e2 he2 hne
      rcases List.mem_cons.mp he1 with he1h | he1t <;> rcases List.mem_cons.mp he2 with he2h | he2t
      · subst he1h; subst he2h; exact absurd rfl hne
      · subst he1h
        obtain ⟨v, hv, hlo, _⟩ := hpres e2 he2t
        rw [hheadlook, hv]
        intro hcon
        have : st.nextId = v := by cases hcon; rfl
        exact absurd (this ▸ hlo) (by simp)
      · subst he2h
        obtain ⟨v, hv, hlo, _⟩ := hpres e1 he1t
        rw [hheadlook, hv]
        intro hcon
        have : v = st.nextId := by cases hcon; rfl
        exact absurd (this ▸ hlo) (by simp)
      · exact hdist e1 he1t e2 he2t hne

/-- C4 (amended): module-weight sharing takes effect only when FiLM
    conditioning is enabled.  (A) With `use_film` and
    `sharing_patterns[0] == 1`, any two vocabulary entries of the same arity
    class resolve to the identical registered module instance, and the
    resolution succeeds.  (B) Without FiLM the `sharing_patterns` flag is
    ignored by the module branch: every classed operator name (names pairwise
    distinct) resolves to its own freshly allocated instance, and distinct
    names resolve to distinct instances. -/
theorem c4_module_sharing :
    (∀ (sp : Nat × Nat) (vocab : List (String × Nat)) (st' : BuildState),
      sp.1 = 1 →
      buildFunctionModules true sp vocab initialBuildState = .ok st' →
      ∀ e1 ∈ vocab, ∀ e2 ∈ vocab, ∀ c,
        arityClass e1.1 e1.2 = some c → arityClass e2.1 e2.2 = some c →
        resolveModule true sp.1 st'.functionModules e1.1 e1.2
          = resolveModule true sp.1 st'.functionModules e2.1 e2.2 ∧
        (resolveModule true sp.1 st'.functionModules e1.1 e1.2).isSome = true) ∧
    (∀ (sp : Nat × Nat) (vocab : List (String × Nat)),
      (∀ e ∈ vocab, (arityClass e.1 e.2).isSome = true) →
      (vocab.map Prod.fst).Nodup →
      ∃ st', buildFunctionModules false sp vocab initialBuildState = .ok st' ∧
        (∀ e ∈ vocab,
          (resolveModule false sp.1 st'.functionModules e.1 e.2).isSome = true) ∧
        (∀ e1 ∈ vocab, ∀ e2 ∈ vocab, e1.1 ≠ e2.1 →
          resolveModule false sp.1 st'.functionModules e1.1 e1.2
            ≠ resolveModule false sp.1 st'.functionModules e2.1 e2.2)) := by
  constructor
  · intro sp vocab st' hsp hb e1 he1 e2 he2 c hc1 hc2
    constructor
    · rw [hsp, resolveModule_film_class st'.functionModules e1.1 e1.2 c hc1,
        resolveModule_film_class st'.functionModules e2.1 e2.2 c hc2]
    · rw [hsp, resolveModule_film_class st'.functionModules e1.1 e1.2 c hc1]
      exact build_film_keys sp hsp vocab initialBuildState st' hb e1 he1 c hc1
  · intro sp vocab hall hnd
    obtain ⟨st', hb, _, _, hpres, hdist⟩ := build_nonfilm sp vocab initialBuildState hall hnd
    refine ⟨st', hb, ?_, ?_⟩
    · intro e he
      obtain ⟨v, hv, _, _⟩ := hpres e he
      show (alookup st'.functionModules e.1).isSome = true
      rw [hv]
      rfl
    · intro e1 he1 e2 he2 hne
      show alookup st'.functionModules e1.1 ≠ alookup st'.functionModules e2.1
      exact hdist e1 he1 e2 he2 hne

/-- Counterexample to C4 as stated: with module-weight sharing enabled
    (`sharing_patterns = (1, 1)`) but `use_film` off, two distinct unary
    operators do NOT share an instance — each gets its own fresh module
    (ids 0 and 1), because the sharing flag is consulted only inside the
    `use_film` branch of the module allocation. -/
theorem c4_sharing_flag_counterexample :
    ((buildFunctionModules false (1, 1) [("red", 1), ("blue", 1)]
        initialBuildState).toOption.map
      (fun st => (resolveModule false 1 st.functionModules "red" 1,
                  resolveModule false 1 st.functionModules "blue" 1)))
      = some (some 0, some 1) := by decide

theorem c4_module_sharing_witness :
    ∃ st', buildFunctionModules true (1, 1) flatqaVocab initialBuildState = .ok st' ∧
      resolveModule true 1 st'.functionModules "red" 1
        = resolveModule true 1 st'.functionModules "square" 1 ∧
      (resolveModule true 1 st'.functionModules "red" 1).isSome = true := by
  have hsome : (buildFunctionModules true (1, 1) flatqaVocab
      initialBuildState).toOption.isSome = true := by decide
  cases hb : buildFunctionModules true (1, 1) flatqaVocab initialBuildState with
  | error e =>
    rw [hb] at hsome
    exact Bool.noConfusion hsome
  | ok st' =>
    have h := c4_module_sharing.1 (1, 1) flatqaVocab st' rfl hb
      ("red", 1) (by decide) ("square", 1) (by decide) 1 (by decide) (by decide)
    exact ⟨st', rfl, h.1, h.2⟩

/-- C9 (amended): no arity validation exists.  (a) Without FiLM, an entry
    whose declared arity falls outside both module branches raises a Python
    `NameError` if it is the first such entry of the loop (locals `mod` /
    `stored_name` unassigned), and otherwise silently re-registers the
    previous iteration's module instance under the new name — construction
    does NOT fail with a `ConfigurationError`.  (b) For a vocabulary whose
    entries all land in an arity class ('scene' or declared arity 1, or
    declared arity 2), construction succeeds and every operator name is
    registered. -/
theorem c9_construction_behavior :
    (∀ (sp : Nat × Nat) (st : BuildState) (f : String) (n : Nat),
      arityClass f n = none →
      (st.lastMod = none → buildStep false sp st f n = .error .nameError) ∧
      (∀ m, st.lastMod = some m → buildStep false sp st f n = .ok
        { st with functionModulesNumInputs := dinsert st.functionModulesNumInputs f n, functionModules := dinsert st.functionModules f m })) ∧
    (∀ (sp : Nat × Nat) (vocab : List (String × Nat)),
      (∀ e ∈ vocab, (arityClass e.1 e.2).isSome = true) →
      ∃ st', buildFunctionModules false sp vocab initialBuildState = .ok st' ∧
        ∀ e ∈ vocab, (alookup st'.functionModules e.1).isSome = true) := by
  constructor
  · intro sp st f n hcl
    exact ⟨buildStep_nonfilm_bad_none sp st f n hcl,
      fun m hm => buildStep_nonfilm_bad_some sp st f n m hcl hm⟩
  · intro sp vocab hall
    exact build_classed_ok sp vocab initialBuildState hall

theorem c9_construction_behavior_witness :
    buildStep false (0, 0) initialBuildState "weird" 3 = .error .nameError ∧
    ∃ st', buildFunctionModules false (0, 0) flatqaVocab initialBuildState = .ok st' ∧
      (alookup st'.functionModules "And").isSome = true := by
  constructor
  · exact (c9_construction_behavior.1 (0, 0) initialBuildState "weird" 3 (by decide)).1 rfl
  · obtain ⟨st', hb, hall⟩ := c9_construction_behavior.2 (0, 0) flatqaVocab (by decide)
    exact ⟨st', hb, hall ("And", 2) (by decide)⟩

end ModuleNet
